import Mathlib

/-!
# 3db-websockets: codec, router, emitter and reconnect machine of `src/main.js`

A shallow embedding of the WebSocket bridge plugin.  The module keeps two
variables, `ws` (the current transport) and `retryTimeout` (the pending retry
timer); `connect` opens a transport and registers four event handlers on it,
`scheduleReconnect` arms the retry timer, and `emitUpdate` (exported as
`onUpdate` and `onGet`) writes one frame to the current transport.

Conventions of the embedding:

* A JavaScript string is a `List Char` (`JStr`).  Every string operation the
  module uses (`indexOf`, `substring`, `startsWith`, `slice`, `split`, `join`,
  `+`) acts on whole characters here; strings holding unpaired surrogate code
  units are outside the model.
* `JSON.stringify` and `JSON.parse` are platform functions.  The message
  handler is embedded with `JSON.parse` as a parameter (`onMessageWith`,
  `parsePayloadWith`), and what is proved of the handler for every frame is
  proved for every such function; `onMessage` and `parsePayload` are the handler
  with the model of `JSON.parse` given here.
* That model works on the JSON values (`Json`): `Number::toString` and
  `QuoteJSONString` as ECMA-262 gives them, and a recursive-descent reader of the
  JSON grammar (whitespace, literals, numbers, strings with escapes, arrays,
  objects).  It reads back the texts that the platform's `JSON.stringify` writes
  as the platform does, which is what the round trip needs, and departs from the
  platform in three places:
  - a finite number is held as its shortest decimal form (sign, significant
    digits, position of the decimal point), which `Number::toString` prints and
    from which the reader rebuilds the same value; the reader keeps every digit
    of a literal, where the platform rounds to a binary double (a literal of
    twenty digits, an overflow to `Infinity`, an underflow to zero), and it reads
    `-0` as zero;
  - a `\u` escape of an unpaired surrogate has no `Char`, so the reader refuses
    a text that the platform accepts;
  - an object is the list of its properties in the order the text gives them;
    the platform enumerates the keys that are array indices first, in ascending
    order, so a list with such a key out of that order is not an object the
    platform builds, and `JSON.stringify` never writes its text.
* A thrown value is `undefined`, `null`, a runtime `TypeError` or any other
  value (`Thrown`); reading `.message` of `undefined` or `null` raises a
  `TypeError`, as the language defines.
* `console.log` lines have no counterpart; `console.error` calls of the two
  `catch` blocks are recorded, since their argument is evaluated first.
-/

namespace WebSockets

/-! ## JavaScript strings -/

/-- A JavaScript string, as the list of its characters. -/
abbrev JStr := List Char

/-- The method `s.indexOf(c)` for a one-character search string `c`: the index of the first
occurrence, or `-1`. -/
def indexOf : JStr → Char → Int
  | [], _ => -1
  | x :: xs, c =>
    if x = c then 0
    else if indexOf xs c = -1 then -1 else indexOf xs c + 1

/-- The clamping of an index argument to `0 .. len` that `substring` performs. -/
def clampIndex (len : Nat) (i : Int) : Nat := min i.toNat len

/-- The method `s.substring(start, stop)`: both arguments clamped to `0 .. s.length`, swapped
when out of order. -/
def substring (s : JStr) (start stop : Int) : JStr :=
  let a := clampIndex s.length start
  let b := clampIndex s.length stop
  (s.drop (min a b)).take (max a b - min a b)

/-- The method `s.substring(start)`: from the clamped index to the end. -/
def substringFrom (s : JStr) (start : Int) : JStr :=
  s.drop (clampIndex s.length start)

/-- The method `s.startsWith(p)`. -/
def startsWith (s p : JStr) : Bool := p.isPrefixOf s

/-- The method `s.slice(start)`: a negative `start` counts from the end. -/
def slice (s : JStr) (start : Int) : JStr :=
  let len : Int := s.length
  let k : Int := if start < 0 then max (len + start) 0 else min start len
  s.drop k.toNat

/-- The method `s.split(sep)` for a one-character separator: always at least one segment. -/
def split : JStr → Char → List JStr
  | [], _ => [[]]
  | c :: cs, sep =>
    if c = sep then [] :: split cs sep
    else
      match split cs sep with
      | [] => [[c]]
      | seg :: rest => (c :: seg) :: rest

/-- The method `segments.join(sep)` on an array of strings. -/
def join : List JStr → JStr → JStr
  | [], _ => []
  | [x], _ => x
  | x :: y :: rest, sep => x ++ sep ++ join (y :: rest) sep

/-- String conversion of an array slot in `a + "/" + b`: a missing element is `undefined`
and concatenates as the text `undefined`. -/
def toStringJS : Option JStr → JStr
  | none => "undefined".toList
  | some s => s

/-! ## Thrown values -/

/-- A value a JavaScript computation can throw (or a promise reject with). -/
inductive Thrown where
  | undefined
  | null
  | typeError
  | value (message : Option JStr)
deriving DecidableEq, Repr

/-- The expression `error.message || error` of both `catch` blocks: reading a property of
`undefined` or `null` raises a `TypeError`; for any other value the expression yields
something to log. -/
def messageOrError : Thrown → Except Thrown Thrown
  | .undefined => .error .typeError
  | .null => .error .typeError
  | e => .ok e

/-! ## JSON values -/

/-- A finite JavaScript number in the form `Number::toString` works from: sign, the
significant decimal digits `d₁ … d_k` and the integer `n` with value
`0.d₁…d_k × 10ⁿ`.  Zero has no digits. -/
structure JNum where
  neg : Bool
  digits : List (Fin 10)
  pointPos : Int
deriving DecidableEq, Repr

/-- A JSON-representable value. An object is the list of its properties, in the order
`JSON.stringify` writes them and the reader meets them. -/
inductive Json where
  | null
  | bool (b : Bool)
  | num (n : JNum)
  | str (s : JStr)
  | arr (xs : List Json)
  | obj (ps : List (JStr × Json))

mutual
/-- Structural equality test on JSON values. -/
def Json.beq : Json → Json → Bool
  | .null, .null => true
  | .bool a, .bool b => a == b
  | .num a, .num b => a == b
  | .str a, .str b => a == b
  | .arr a, .arr b => Json.beqList a b
  | .obj a, .obj b => Json.beqProps a b
  | _, _ => false
/-- Structural equality test on lists of JSON values. -/
def Json.beqList : List Json → List Json → Bool
  | [], [] => true
  | x :: xs, y :: ys => Json.beq x y && Json.beqList xs ys
  | _, _ => false
/-- Structural equality test on property lists. -/
def Json.beqProps : List (JStr × Json) → List (JStr × Json) → Bool
  | [], [] => true
  | (k, x) :: xs, (l, y) :: ys => k == l && Json.beq x y && Json.beqProps xs ys
  | _, _ => false
end

/-! ### Numbers: `Number::toString` -/

/-- The character of a decimal digit. -/
def digitChar (d : Fin 10) : Char := Char.ofNat (48 + d.val)

/-- The characters of a digit list. -/
def digitChars (ds : List (Fin 10)) : JStr := ds.map digitChar

/-- The decimal digits of a natural number, most significant first, given enough fuel. -/
def natDigitsAux : Nat → Nat → List (Fin 10) → List (Fin 10)
  | 0, _, acc => acc
  | fuel + 1, n, acc =>
    if n < 10 then Fin.ofNat n :: acc
    else natDigitsAux fuel (n / 10) (Fin.ofNat (n % 10) :: acc)

/-- The decimal digits of a natural number, most significant first (`0` is one digit). -/
def natDigits (n : Nat) : List (Fin 10) := natDigitsAux (n + 1) n []

/-- A run of `n` zero characters. -/
def zeros (n : Nat) : JStr := List.replicate n '0'

/-- The exponent suffix `e+dd` / `e-dd` of scientific notation. -/
def exponentPart (e : Int) : JStr :=
  'e' :: (if 0 ≤ e then '+' else '-') :: digitChars (natDigits e.natAbs)

/-- The text of a non-zero magnitude (ECMA-262 `Number::toString`, radix 10, steps 5 to 9)
with `k` significant digits `ds` and decimal-point position `n`. -/
def magnitudeToString (ds : List (Fin 10)) (n : Int) : JStr :=
  let k : Int := ds.length
  if -5 ≤ n ∧ n ≤ 21 then
    if k ≤ n then digitChars ds ++ zeros (n - k).toNat
    else if 0 < n then digitChars (ds.take n.toNat) ++ '.' :: digitChars (ds.drop n.toNat)
    else '0' :: '.' :: (zeros (-n).toNat ++ digitChars ds)
  else
    match ds with
    | [] => []
    | [d] => digitChar d :: exponentPart (n - 1)
    | d :: rest => digitChar d :: '.' :: (digitChars rest ++ exponentPart (n - 1))

/-- ECMA-262 `Number::toString(x)` for a finite number. -/
def numberToString (x : JNum) : JStr :=
  match x.digits with
  | [] => ['0']
  | d :: ds => (if x.neg then ['-'] else []) ++ magnitudeToString (d :: ds) x.pointPos

/-! ### `JSON.stringify` -/

/-- A hexadecimal digit, lower case. -/
def hexDigitChar (n : Nat) : Char :=
  if n < 10 then Char.ofNat (48 + n) else Char.ofNat (87 + n)

/-- ECMA-262 `UnicodeEscape`: a backslash, `u` and four lower-case hexadecimal digits. -/
def unicodeEscape (n : Nat) : JStr :=
  ['\\', 'u', hexDigitChar (n / 4096 % 16), hexDigitChar (n / 256 % 16),
    hexDigitChar (n / 16 % 16), hexDigitChar (n % 16)]

/-- One character of ECMA-262 `QuoteJSONString`: the seven two-character escapes, a
unicode escape for the other control characters, the character itself otherwise. -/
def quoteChar (c : Char) : JStr :=
  if c = '\x08' then ['\\', 'b']
  else if c = '\t' then ['\\', 't']
  else if c = '\n' then ['\\', 'n']
  else if c = '\x0c' then ['\\', 'f']
  else if c = '\r' then ['\\', 'r']
  else if c = '"' then ['\\', '"']
  else if c = '\\' then ['\\', '\\']
  else if c.toNat < 32 then unicodeEscape c.toNat
  else [c]

/-- The escaped characters of a string, without the surrounding quotes. -/
def quoteChars : JStr → JStr
  | [] => []
  | c :: cs => quoteChar c ++ quoteChars cs

/-- ECMA-262 `QuoteJSONString`. -/
def quoteJSONString (s : JStr) : JStr := '"' :: (quoteChars s ++ ['"'])

mutual
/-- The function `JSON.stringify(value)` (no replacer, no indentation) on a JSON value. -/
def JSON.stringify : Json → JStr
  | .null => ['n', 'u', 'l', 'l']
  | .bool true => ['t', 'r', 'u', 'e']
  | .bool false => ['f', 'a', 'l', 's', 'e']
  | .num n => numberToString n
  | .str s => quoteJSONString s
  | .arr [] => ['[', ']']
  | .arr (x :: xs) => '[' :: (JSON.stringify x ++ JSON.stringifyTail xs)
  | .obj [] => ['{', '}']
  | .obj ((k, v) :: ps) =>
    '{' :: (quoteJSONString k ++ ':' :: (JSON.stringify v ++ JSON.stringifyMembers ps))
/-- The elements of an array after the first, each preceded by a comma, and the closing
bracket. -/
def JSON.stringifyTail : List Json → JStr
  | [] => [']']
  | x :: xs => ',' :: (JSON.stringify x ++ JSON.stringifyTail xs)
/-- The members of an object after the first, each preceded by a comma, and the closing
brace. -/
def JSON.stringifyMembers : List (JStr × Json) → JStr
  | [] => ['}']
  | (k, v) :: ps =>
    ',' :: (quoteJSONString k ++ ':' :: (JSON.stringify v ++ JSON.stringifyMembers ps))
end

/-! ### `JSON.parse` -/

/-- JSON whitespace: space, tab, line feed, carriage return. -/
def isWs (c : Char) : Bool := c = ' ' || c = '\t' || c = '\n' || c = '\r'

/-- Drops leading JSON whitespace. -/
def skipWs : JStr → JStr
  | [] => []
  | c :: r => if isWs c then skipWs r else c :: r

/-- Consumes the exact text `lit`. -/
def expectLit : JStr → JStr → Option JStr
  | [], s => some s
  | _ :: _, [] => none
  | l :: ls, c :: r => if c = l then expectLit ls r else none

/-- The value of a decimal digit character. -/
def digitOf (c : Char) : Option (Fin 10) :=
  if 48 ≤ c.toNat ∧ c.toNat ≤ 57 then some (Fin.ofNat (c.toNat - 48)) else none

/-- The longest run of decimal digits at the head of the text, and what follows it. -/
def takeDigits : JStr → List (Fin 10) × JStr
  | [] => ([], [])
  | c :: r =>
    match digitOf c with
    | some d => ((d :: (takeDigits r).1), (takeDigits r).2)
    | none => ([], c :: r)

/-- The natural number a digit list writes. -/
def digitsToNat (ds : List (Fin 10)) : Nat := ds.foldl (fun a d => 10 * a + d.val) 0

/-- The `int` part of a JSON number: a lone `0`, or a non-zero digit and more digits. -/
def takeInt : JStr → Option (List (Fin 10) × JStr)
  | [] => none
  | c :: r =>
    match digitOf c with
    | none => none
    | some d => if d = 0 then some ([d], r) else some (d :: (takeDigits r).1, (takeDigits r).2)

/-- The optional `frac` part of a JSON number: a point and at least one digit. -/
def takeFrac : JStr → Option (List (Fin 10) × JStr)
  | [] => some ([], [])
  | c :: r =>
    if c = '.' then
      if (takeDigits r).1 = [] then none else some (takeDigits r)
    else some ([], c :: r)

/-- The digits of an exponent, read as an integer of the given sign. -/
def takeExpDigits (negative : Bool) (s : JStr) : Option (Int × JStr) :=
  if (takeDigits s).1 = [] then none
  else
    let m : Int := digitsToNat (takeDigits s).1
    some (if negative then -m else m, (takeDigits s).2)

/-- The optional `exp` part of a JSON number: `e` or `E`, an optional sign, digits. -/
def takeExp : JStr → Option (Int × JStr)
  | [] => some (0, [])
  | c :: r =>
    if c = 'e' ∨ c = 'E' then
      match r with
      | [] => none
      | t :: r2 =>
        if t = '+' then takeExpDigits false r2
        else if t = '-' then takeExpDigits true r2
        else takeExpDigits false (t :: r2)
    else some (0, c :: r)

/-- Drops leading zero digits; each one moves the decimal point one place to the left. -/
def stripLeading : List (Fin 10) → Int → List (Fin 10) × Int
  | [], n => ([], n)
  | d :: ds, n => if d = 0 then stripLeading ds (n - 1) else (d :: ds, n)

/-- Drops trailing zero digits. -/
def stripTrailing (ds : List (Fin 10)) : List (Fin 10) :=
  (ds.reverse.dropWhile (fun d => d = 0)).reverse

/-- The number written by the digits `ds` with the decimal point after the first `n` of
them, in shortest form.  Every significant digit is kept: the rounding of a long literal
to a binary double is not modelled, and a zero comes out unsigned. -/
def mkNum (neg : Bool) (ds : List (Fin 10)) (n : Int) : JNum :=
  let lead := stripLeading ds n
  let sig := stripTrailing lead.1
  if sig = [] then ⟨false, [], 0⟩ else ⟨neg, sig, lead.2⟩

/-- The unsigned part of a JSON number literal. -/
def parseMagnitude (neg : Bool) (s : JStr) : Option (JNum × JStr) :=
  match takeInt s with
  | none => none
  | some (ip, s2) =>
    match takeFrac s2 with
    | none => none
    | some (fp, s3) =>
      match takeExp s3 with
      | none => none
      | some (e, s4) => some (mkNum neg (ip ++ fp) (ip.length + e), s4)

/-- A JSON number literal at the head of the text. -/
def parseNumber : JStr → Option (JNum × JStr)
  | [] => none
  | c :: r => if c = '-' then parseMagnitude true r else parseMagnitude false (c :: r)

/-- The value of a hexadecimal digit character, either case. -/
def hexVal (c : Char) : Option Nat :=
  if 48 ≤ c.toNat ∧ c.toNat ≤ 57 then some (c.toNat - 48)
  else if 97 ≤ c.toNat ∧ c.toNat ≤ 102 then some (c.toNat - 87)
  else if 65 ≤ c.toNat ∧ c.toNat ≤ 70 then some (c.toNat - 55)
  else none

/-- The code unit four hexadecimal digits write. -/
def hex4 (a b c d : Char) : Option Nat :=
  match hexVal a, hexVal b, hexVal c, hexVal d with
  | some w, some x, some y, some z => some (((w * 16 + x) * 16 + y) * 16 + z)
  | _, _, _, _ => none

/-- The character a one-letter escape stands for. -/
def simpleEscape (e : Char) : Option Char :=
  if e = '"' then some '"'
  else if e = '\\' then some '\\'
  else if e = '/' then some '/'
  else if e = 'b' then some '\x08'
  else if e = 'f' then some '\x0c'
  else if e = 'n' then some '\n'
  else if e = 'r' then some '\r'
  else if e = 't' then some '\t'
  else none

/-- The second half of a surrogate pair: a unicode escape of a low surrogate, which with
the high surrogate `high` before it makes one character. -/
def parseLowSurrogate (high : Nat) : JStr → Option (Char × JStr)
  | b :: u :: l1 :: l2 :: l3 :: l4 :: r =>
    if b = '\\' ∧ u = 'u' then
      match hex4 l1 l2 l3 l4 with
      | none => none
      | some low =>
        if 0xDC00 ≤ low ∧ low ≤ 0xDFFF then
          some (Char.ofNat (0x10000 + (high - 0xD800) * 0x400 + (low - 0xDC00)), r)
        else none
    else none
  | _ => none

/-- The four hexadecimal digits after `\u`, and the character they stand for.  A high
surrogate must be followed by the escape of a low surrogate; an unpaired surrogate has no
`Char` and is refused here, where the platform returns a string holding it. -/
def parseUnicode : JStr → Option (Char × JStr)
  | h1 :: h2 :: h3 :: h4 :: r =>
    match hex4 h1 h2 h3 h4 with
    | none => none
    | some code =>
      if 0xD800 ≤ code ∧ code ≤ 0xDBFF then parseLowSurrogate code r
      else if 0xDC00 ≤ code ∧ code ≤ 0xDFFF then none
      else some (Char.ofNat code, r)
  | _ => none

/-- An escape sequence after its backslash: the character it stands for and the text
after it. -/
def parseEscape : JStr → Option (Char × JStr)
  | [] => none
  | e :: r =>
    if e = 'u' then parseUnicode r
    else
      match simpleEscape e with
      | none => none
      | some x => some (x, r)

/-- The characters of a string literal after its opening quote, up to and without the
closing quote, and the text after it.  Every step reads at least one character, so
`fuel` equal to the length of the text is enough. -/
def parseChars : Nat → JStr → Option (JStr × JStr)
  | 0, _ => none
  | _ + 1, [] => none
  | fuel + 1, c :: r =>
    if c = '"' then some ([], r)
    else if c = '\\' then
      match parseEscape r with
      | none => none
      | some (x, r2) => (parseChars fuel r2).map (fun p => (x :: p.1, p.2))
    else if c.toNat < 32 then none
    else (parseChars fuel r).map (fun p => (c :: p.1, p.2))

/-- The rest of a string literal whose opening quote has been read. -/
def parseString (s : JStr) : Option (JStr × JStr) := parseChars s.length s

/-- The step `CreateDataProperty(object, key, value)` of the reader: a repeated key keeps
its place and takes the later value, a new key is added last. -/
def setProp : List (JStr × Json) → JStr → Json → List (JStr × Json)
  | [], k, v => [(k, v)]
  | (k0, v0) :: rest, k, v =>
    if k0 = k then (k0, v) :: rest else (k0, v0) :: setProp rest k v

/-- The object built from the members of an object literal, in the order read (keys that
are array indices are not moved to the front, as the platform would). -/
def mkObject (members : List (JStr × Json)) : Json :=
  .obj (members.foldl (fun acc m => setProp acc m.1 m.2) [])

mutual
/-- A JSON value at the head of the text (after optional whitespace), and the text after
it.  `fuel` bounds the nesting of the recursive descent. -/
def parseValue : Nat → JStr → Option (Json × JStr)
  | 0, _ => none
  | fuel + 1, s =>
    match skipWs s with
    | [] => none
    | c :: r =>
      if c = '"' then (parseString r).map (fun p => (Json.str p.1, p.2))
      else if c = '[' then
        match skipWs r with
        | [] => none
        | c2 :: r2 =>
          if c2 = ']' then some (Json.arr [], r2)
          else (parseElems fuel (c2 :: r2)).map (fun p => (Json.arr p.1, p.2))
      else if c = '{' then
        match skipWs r with
        | [] => none
        | c2 :: r2 =>
          if c2 = '}' then some (Json.obj [], r2)
          else (parseMembers fuel (c2 :: r2)).map (fun p => (mkObject p.1, p.2))
      else if c = 'n' then (expectLit ['u', 'l', 'l'] r).map (fun r2 => (Json.null, r2))
      else if c = 't' then (expectLit ['r', 'u', 'e'] r).map (fun r2 => (Json.bool true, r2))
      else if c = 'f' then
        (expectLit ['a', 'l', 's', 'e'] r).map (fun r2 => (Json.bool false, r2))
      else (parseNumber (c :: r)).map (fun p => (Json.num p.1, p.2))
/-- The elements of an array from the first to the closing bracket. -/
def parseElems : Nat → JStr → Option (List Json × JStr)
  | 0, _ => none
  | fuel + 1, s =>
    match parseValue fuel s with
    | none => none
    | some (v, r) =>
      match skipWs r with
      | [] => none
      | c :: r2 =>
        if c = ',' then (parseElems fuel r2).map (fun p => (v :: p.1, p.2))
        else if c = ']' then some ([v], r2)
        else none
/-- The members of an object from the first to the closing brace. -/
def parseMembers : Nat → JStr → Option (List (JStr × Json) × JStr)
  | 0, _ => none
  | fuel + 1, s =>
    match skipWs s with
    | [] => none
    | q :: r =>
      if q = '"' then
        match parseString r with
        | none => none
        | some (k, r1) =>
          match skipWs r1 with
          | [] => none
          | colon :: r2 =>
            if colon = ':' then
              match parseValue fuel r2 with
              | none => none
              | some (v, r3) =>
                match skipWs r3 with
                | [] => none
                | c :: r4 =>
                  if c = ',' then (parseMembers fuel r4).map (fun p => ((k, v) :: p.1, p.2))
                  else if c = '}' then some ([(k, v)], r4)
                  else none
            else none
      else none
end

/-- The function `JSON.parse(text)`: `none` stands for the `SyntaxError` it throws.  The
whole text must be one JSON value between optional whitespace.  The fuel handed to the
reader is more than it can use (`parseValue_fuel`). -/
def JSON.parse (text : JStr) : Option Json :=
  match parseValue (2 * text.length + 2) text with
  | none => none
  | some (v, rest) => if skipWs rest = [] then some v else none

/-! ## The module: configuration, state, transports and timers -/

/-- The plugin configuration: `serverUrl`, the optional `websocketPrefix`, `verbose`. -/
structure Config where
  serverUrl : JStr
  websocketPrefix : Option JStr
  verbose : Bool
deriving DecidableEq, Repr

/-- The expression `config.websocketPrefix || ''`. -/
def prefixOrEmpty (config : Config) : JStr :=
  match config.websocketPrefix with
  | none => []
  | some p => p

/-- The expression `config.websocketPrefix?.length || 0`. -/
def prefixLength (config : Config) : Int :=
  match config.websocketPrefix with
  | none => 0
  | some p => (p.length : Int)

/-- One invocation `runApi(eventName, target, payload)` of the host dispatcher, for
payloads of type `V`. -/
structure CallOf (V : Type) where
  eventName : JStr
  target : JStr
  payload : V

/-- One invocation of the host dispatcher with a payload of the JSON model. -/
abbrev Call := CallOf Json

/-- The host dispatcher as the handler sees it through `await`: `none` when the call
completes, `some e` when it throws `e` or its promise rejects with `e`. -/
abbrev DispatcherOf (V : Type) := JStr → JStr → V → Option Thrown

/-- The host dispatcher for payloads of the JSON model. -/
abbrev Dispatcher := DispatcherOf Json

/-- What one run of the message handler did: the dispatcher calls it made, the faults it
wrote with `console.error`, and the fault it ended with (`none`: it completed). -/
structure HandledOf (V : Type) where
  calls : List (CallOf V)
  errors : List Thrown
  raised : Option Thrown

/-- A run of the message handler with payloads of the JSON model. -/
abbrev Handled := HandledOf Json

/-- The `catch (error)` block of the message handler and of `emitUpdate`: it evaluates
`error.message || error` and writes the result with `console.error` (the further
`console.error` lines under `verbose` come after it and are not recorded). -/
def catchBlock (error : Thrown) : List Thrown × Option Thrown :=
  match messageOrError error with
  | .error t => ([], some t)
  | .ok logged => ([logged], none)

/-- Lines 61 to 70 of the message handler: the frame is cut at the first `|` into `key` and
`value`; `none` is the early `return` for a frame without `|`. -/
def splitFrame (message : JStr) : Option (JStr × JStr) :=
  let separatorIndex := indexOf message '|'
  if separatorIndex = -1 then none
  else some (substring message 0 separatorIndex, substringFrom message (separatorIndex + 1))

/-- Lines 72 to 80 of the message handler: `none` is the early `return` for a key that does
not start with the configured text, else the key without its first `length` characters. -/
def stripPrefix (config : Config) (key : JStr) : Option JStr :=
  if !startsWith key (prefixOrEmpty config) then none
  else some (slice key (prefixLength config))

/-- Lines 82 to 84 of the message handler: `[plugin, api, ...target] = key.split("/")`,
`eventName = plugin + "/" + api` and `target.join("/")`. -/
def route (key : JStr) : JStr × JStr :=
  let segments := split key '/'
  let plugin := segments.head?
  let api := segments.tail.head?
  let target := segments.tail.tail
  (toStringJS plugin ++ '/' :: toStringJS api, join target ['/'])

/-- Lines 92 to 97 of the message handler: `JSON.parse(value)`, and `value` itself when
that throws.  `JSON.parse` is the platform's: `parse` stands for it (`none` when it
throws), `V` for the values it returns and `ofString` for a string taken as a value. -/
def parsePayloadWith {V : Type} (parse : JStr → Option V) (ofString : JStr → V)
    (value : JStr) : V :=
  match parse value with
  | some v => v
  | none => ofString value

/-- The `message` handler that `connect` registers (lines 51 to 111), for the text
`message = data.toString()` and the platform's `JSON.parse` given as `parse`. -/
def onMessageWith {V : Type} (parse : JStr → Option V) (ofString : JStr → V)
    (config : Config) (runApi : DispatcherOf V) (message : JStr) : HandledOf V :=
  match splitFrame message with
  | none => { calls := [], errors := [], raised := none }
  | some (key, value) =>
    match stripPrefix config key with
    | none => { calls := [], errors := [], raised := none }
    | some key =>
      let eventName := (route key).1
      let target := (route key).2
      let parsedValue := parsePayloadWith parse ofString value
      let call : CallOf V := { eventName := eventName, target := target, payload := parsedValue }
      match runApi eventName target parsedValue with
      | none => { calls := [call], errors := [], raised := none }
      | some error =>
        { calls := [call], errors := (catchBlock error).1, raised := (catchBlock error).2 }

/-- Lines 92 to 97 of the message handler with the model of `JSON.parse` above. -/
def parsePayload (value : JStr) : Json := parsePayloadWith JSON.parse Json.str value

/-- The `message` handler with the model of `JSON.parse` above. -/
def onMessage (config : Config) (runApi : Dispatcher) (message : JStr) : Handled :=
  onMessageWith JSON.parse Json.str config runApi message

/-- The `readyState` of a transport that is still connecting. -/
def WebSocket.CONNECTING : Nat := 0

/-- The `readyState` of an open transport. -/
def WebSocket.OPEN : Nat := 1

/-- The `readyState` of a transport that is closing. -/
def WebSocket.CLOSING : Nat := 2

/-- The `readyState` of a closed transport. -/
def WebSocket.CLOSED : Nat := 3

/-- A transport created by `new WebSocket(url)`: its address, its `readyState` and the
frames `send` accepted. -/
structure Socket where
  url : JStr
  readyState : Nat
  sent : List JStr
deriving DecidableEq, Repr

/-- The value of the module variable `retryTimeout`: `undefined` at load, `null` after a
timer fired, or the timer `setTimeout` returned. -/
inductive TimerRef where
  | undefined
  | null
  | timer (id : Nat)
deriving DecidableEq, Repr

/-- The truthiness test `if (retryTimeout)`. -/
def TimerRef.truthy : TimerRef → Bool
  | .timer _ => true
  | _ => false

/-- An outstanding timer of the host: its identity and its delay in milliseconds. -/
structure Timer where
  id : Nat
  delay : Nat
deriving DecidableEq, Repr

/-- The module state and the host objects it refers to: the variables `ws` (an index into
the transports created so far) and `retryTimeout`, every transport created, the timers
that are scheduled and have not fired, and the number of timers created. -/
structure World where
  ws : Option Nat
  retryTimeout : TimerRef
  sockets : List Socket
  timers : List Timer
  timersCreated : Nat
deriving DecidableEq, Repr

/-- The state when the module is loaded: both variables `undefined`, nothing created. -/
def World.initial : World :=
  { ws := none, retryTimeout := .undefined, sockets := [], timers := [], timersCreated := 0 }

/-- The function `connect(config, runApi)`: opens a transport to `"ws://" + serverUrl` and
stores it in `ws` (the four handlers it registers are `step` below). -/
def connect (config : Config) (w : World) : World :=
  let serverUrl := "ws://".toList ++ config.serverUrl
  { w with
    sockets := w.sockets ++ [{ url := serverUrl, readyState := WebSocket.CONNECTING, sent := [] }]
    ws := some w.sockets.length }

/-- The function `scheduleReconnect(config, runApi)`: nothing when `retryTimeout` is truthy,
else one timer of 3000 ms, kept in `retryTimeout`. -/
def scheduleReconnect (w : World) : World :=
  if w.retryTimeout.truthy then w
  else
    { w with
      retryTimeout := .timer w.timersCreated
      timers := w.timers ++ [{ id := w.timersCreated, delay := 3000 }]
      timersCreated := w.timersCreated + 1 }

/-- The callback `scheduleReconnect` hands to `setTimeout`: clears `retryTimeout`, then
connects. -/
def retryCallback (config : Config) (w : World) : World :=
  connect config { w with retryTimeout := .null }

/-- The function `onInitialize(config, runApi)`. -/
def onInitialize (config : Config) (w : World) : World := connect config w

/-- Sets the `readyState` of transport `i`, as the transport does before it emits an event. -/
def setReadyState (w : World) (i : Nat) (state : Nat) : World :=
  { w with sockets := w.sockets.modify (fun s => { s with readyState := state }) i }

/-- What the host can deliver to the module: an event of a transport created earlier, or
the firing of a scheduled timer. -/
inductive Event where
  | opened (socket : Nat)
  | closed (socket : Nat)
  | errored (socket : Nat)
  | message (socket : Nat) (data : JStr)
  | timerFired (id : Nat)

/-- One event delivered to the handlers `connect` registered, `none` when the host cannot
deliver it (no such transport, no such timer).  The transport is `OPEN` when it emits
`open`, `CLOSED` when it emits `close` and `CLOSING` when it emits `error`; the message
handler leaves both module variables alone. -/
def step (config : Config) (runApi : Dispatcher) (w : World) : Event → Option (World × Handled)
  | .opened i =>
    if i < w.sockets.length then
      some (setReadyState w i WebSocket.OPEN, { calls := [], errors := [], raised := none })
    else none
  | .closed i =>
    if i < w.sockets.length then
      some (scheduleReconnect (setReadyState w i WebSocket.CLOSED),
        { calls := [], errors := [], raised := none })
    else none
  | .errored i =>
    if i < w.sockets.length then
      some (scheduleReconnect (setReadyState w i WebSocket.CLOSING),
        { calls := [], errors := [], raised := none })
    else none
  | .message i data =>
    if i < w.sockets.length then some (w, onMessage config runApi data) else none
  | .timerFired t =>
    if w.timers.any (fun x => x.id = t) then
      some (retryCallback config { w with timers := w.timers.filter (fun x => x.id ≠ t) },
        { calls := [], errors := [], raised := none })
    else none

/-- The events of a list delivered in order, starting from `w`. -/
def run (config : Config) (runApi : Dispatcher) : World → List Event → Option World
  | w, [] => some w
  | w, e :: es =>
    match step config runApi w e with
    | none => none
    | some (w2, _) => run config runApi w2 es

/-! ## The outbound emitter -/

/-- The `data` argument of `emitUpdate`: a JSON-representable value (a string is
`Json.str`), a value `JSON.stringify` maps to `undefined` (`undefined`, a function, a
symbol), or a value on which `JSON.stringify` throws (a cycle, a BigInt, a throwing
`toJSON`). -/
inductive Data where
  | json (v : Json)
  | undefined
  | unserializable (e : Thrown)

/-- The expression `typeof data === 'string' ? data : JSON.stringify(data)`; `none` is
`undefined`. -/
def serialize : Data → Except Thrown (Option JStr)
  | .json (.str s) => .ok (some s)
  | .json v => .ok (some (JSON.stringify v))
  | .undefined => .ok none
  | .unserializable e => .error e

/-- The frame `emitUpdate` builds: `(config.websocketPrefix || '') + id + '|' + value`. -/
def frameOf (config : Config) (id : JStr) (value : Option JStr) : JStr :=
  (prefixOrEmpty config ++ id) ++ '|' :: toStringJS value

/-- What one call of `emitUpdate` did: the frames it handed to `ws.send` (with the
transport), the faults it wrote with `console.error`, and how its promise settled (the
value it returns, or the fault it rejects with). -/
structure Emitted where
  sends : List (Nat × JStr)
  errors : List Thrown
  result : Except Thrown Data

/-- The test of line 130, `ws && ws.readyState === WebSocket.OPEN`: the transport held by
`ws` when there is one and it is open. -/
def openTransport (w : World) : Option Nat :=
  match w.ws with
  | none => none
  | some i =>
    match w.sockets.get? i with
    | none => none
    | some socket => if socket.readyState = WebSocket.OPEN then some i else none

/-- The `catch` block of `emitUpdate` (lines 146 to 152) and the `return data` after it,
for the frames handed to `send` so far. -/
def caught (sends : List (Nat × JStr)) (error : Thrown) (data : Data) : Emitted :=
  { sends := sends
    errors := (catchBlock error).1
    result :=
      match (catchBlock error).2 with
      | none => .ok data
      | some t => .error t }

/-- The transport `i` accepts a frame. -/
def accept (w : World) (i : Nat) (message : JStr) : World :=
  { w with sockets := w.sockets.modify (fun s => { s with sent := s.sent ++ [message] }) i }

/-- The function `emitUpdate(config, runApi, id, data)` (lines 124 to 160).  `send` tells
how the transport answers `ws.send(message)`: `none` when it accepts the frame, `some e`
when it throws `e`. -/
def emitUpdate (config : Config) (send : JStr → Option Thrown) (w : World) (id : JStr)
    (data : Data) : World × Emitted :=
  match openTransport w with
  | none => (w, { sends := [], errors := [], result := .ok data })
  | some i =>
    match serialize data with
    | .error e => (w, caught [] e data)
    | .ok value =>
      let message := frameOf config id value
      match send message with
      | none => (accept w i message, { sends := [(i, message)], errors := [], result := .ok data })
      | some e => (w, caught [(i, message)] e data)

/-- The export `onUpdate` of the module: `emitUpdate` under another name. -/
def onUpdate (config : Config) (send : JStr → Option Thrown) (w : World) (id : JStr)
    (data : Data) : World × Emitted :=
  emitUpdate config send w id data

/-- The export `onGet` of the module: `emitUpdate` under another name. -/
def onGet (config : Config) (send : JStr → Option Thrown) (w : World) (id : JStr)
    (data : Data) : World × Emitted :=
  emitUpdate config send w id data

/-! ## State predicates -/

/-- The event is a transport `close` or `error`. -/
def Event.isCloseOrError : Event → Bool
  | .closed _ => true
  | .errored _ => true
  | _ => false

/-- The single-pending-retry property of a state: either `retryTimeout` is falsy and no
timer is outstanding, or `retryTimeout` holds the one outstanding timer, of 3000 ms. -/
def SingleRetry (w : World) : Prop :=
  (w.retryTimeout.truthy = false ∧ w.timers = []) ∨
    ∃ t, w.retryTimeout = .timer t ∧ w.timers = [{ id := t, delay := 3000 }]

/-- A state reached from the loaded module by `onInitialize` and then a sequence of
deliverable events. -/
def Reachable (config : Config) (runApi : Dispatcher) (w : World) : Prop :=
  ∃ events, run config runApi (onInitialize config World.initial) events = some w

/-- The thrown value is `undefined` or `null`. -/
def Thrown.nullish : Thrown → Bool
  | .undefined => true
  | .null => true
  | _ => false

/-- The test of line 130, `ws && ws.readyState === WebSocket.OPEN`, as a property of the
state: `ws` holds a transport and that transport is open. -/
def Connected (w : World) : Prop :=
  ∃ i socket, w.ws = some i ∧ w.sockets.get? i = some socket ∧
    socket.readyState = WebSocket.OPEN

/-! ## Well-formed JSON values -/

/-- The text after a number literal does not continue it: it is empty or starts with a
character that is no digit, point or exponent mark. -/
def numberEnd : JStr → Bool
  | [] => true
  | c :: _ => (digitOf c).isNone && c != '.' && c != 'e' && c != 'E'

/-- The shortest form of a number: zero has no digits, no sign and position `0`; any other
number has a non-zero first and a non-zero last digit. -/
def JNum.normal (x : JNum) : Bool :=
  match x.digits with
  | [] => !x.neg && x.pointPos == 0
  | d :: ds => d != 0 && (d :: ds).getLast? != some 0

mutual
/-- The value is one `JSON.stringify` can be given and `JSON.parse` can return: every
number in shortest form, no object with a repeated key. -/
def Json.wf : Json → Bool
  | .null => true
  | .bool _ => true
  | .num n => n.normal
  | .str _ => true
  | .arr xs => Json.wfList xs
  | .obj ps => Json.wfProps ps && decide ((ps.map Prod.fst).Nodup)
/-- Every value of the list is well formed. -/
def Json.wfList : List Json → Bool
  | [] => true
  | x :: xs => Json.wf x && Json.wfList xs
/-- Every property value of the list is well formed. -/
def Json.wfProps : List (JStr × Json) → Bool
  | [] => true
  | (_, v) :: ps => Json.wf v && Json.wfProps ps
end

mutual
/-- A bound on the fuel the recursive descent needs to read the value back. -/
def Json.fuel : Json → Nat
  | .null => 1
  | .bool _ => 1
  | .num _ => 1
  | .str _ => 1
  | .arr xs => 1 + Json.fuelList xs
  | .obj ps => 1 + Json.fuelProps ps
/-- The fuel for the elements of an array. -/
def Json.fuelList : List Json → Nat
  | [] => 0
  | x :: xs => 1 + Json.fuel x + Json.fuelList xs
/-- The fuel for the members of an object. -/
def Json.fuelProps : List (JStr × Json) → Nat
  | [] => 0
  | (_, v) :: ps => 1 + Json.fuel v + Json.fuelProps ps
end

/-- A character that can start the text of a JSON value. -/
def valueStart (c : Char) : Bool :=
  c = 'n' || c = 't' || c = 'f' || c = '"' || c = '[' || c = '{' || c = '-' ||
    (digitOf c).isSome

/-- The transport is live: connecting or open. -/
def Socket.live (s : Socket) : Bool :=
  s.readyState = WebSocket.CONNECTING || s.readyState = WebSocket.OPEN

/-- The number of live transports among those created so far. -/
def World.liveTransports (w : World) : Nat := (w.sockets.filter Socket.live).length

/-! ## Decidable equality of JSON values -/

mutual
theorem Json.beq_iff : ∀ a b : Json, Json.beq a b = true ↔ a = b
  | .null, b => by cases b <;> simp [Json.beq]
  | .bool a, b => by cases b <;> simp [Json.beq]
  | .num a, b => by cases b <;> simp [Json.beq]
  | .str a, b => by cases b <;> simp [Json.beq]
  | .arr a, b => by
    cases b <;> simp [Json.beq]
    exact Json.beqList_iff a _
  | .obj a, b => by
    cases b <;> simp [Json.beq]
    exact Json.beqProps_iff a _
theorem Json.beqList_iff : ∀ a b : List Json, Json.beqList a b = true ↔ a = b
  | [], b => by cases b <;> simp [Json.beqList]
  | x :: xs, b => by
    cases b with
    | nil => simp [Json.beqList]
    | cons y ys => simp [Json.beqList, Json.beq_iff x y, Json.beqList_iff xs ys]
theorem Json.beqProps_iff : ∀ a b : List (JStr × Json), Json.beqProps a b = true ↔ a = b
  | [], b => by cases b <;> simp [Json.beqProps]
  | (k, x) :: xs, b => by
    cases b with
    | nil => simp [Json.beqProps]
    | cons y ys =>
      obtain ⟨l, y⟩ := y
      simp [Json.beqProps, Json.beq_iff x y, Json.beqProps_iff xs ys, and_assoc]
end

instance : DecidableEq Json := fun a b => decidable_of_iff _ (Json.beq_iff a b)

instance {V : Type} [DecidableEq V] : DecidableEq (CallOf V) := fun a b =>
  decidable_of_iff (a.eventName = b.eventName ∧ a.target = b.target ∧ a.payload = b.payload)
    (by cases a; cases b; simp)

instance {V : Type} [DecidableEq V] : DecidableEq (HandledOf V) := fun a b =>
  decidable_of_iff (a.calls = b.calls ∧ a.errors = b.errors ∧ a.raised = b.raised)
    (by cases a; cases b; simp)

/-! ## String primitives -/

theorem indexOf_ge (s : JStr) (c : Char) : -1 ≤ indexOf s c := by
  induction s with
  | nil => simp [indexOf]
  | cons x xs ih =>
    unfold indexOf
    split_ifs <;> omega

theorem indexOf_eq_neg_one_iff (s : JStr) (c : Char) : indexOf s c = -1 ↔ c ∉ s := by
  induction s with
  | nil => simp [indexOf]
  | cons x xs ih =>
    have hge := indexOf_ge xs c
    unfold indexOf
    by_cases hx : x = c
    · subst hx; simp
    · have hne : ¬ c = x := fun h => hx h.symm
      by_cases hr : indexOf xs c = -1
      · simp [hx, hr, hne, ih.mp hr]
      · have : c ∈ xs := by
          by_contra hc
          exact hr (ih.mpr hc)
        simp only [hx, hr, if_false, List.mem_cons, this, or_true, not_true, iff_false]
        omega

theorem indexOf_append_sep (key value : JStr) (c : Char) (h : c ∉ key) :
    indexOf (key ++ c :: value) c = key.length := by
  induction key with
  | nil => simp [indexOf]
  | cons x xs ih =>
    have hx : ¬ x = c := fun e => h (by simp [e])
    have hxs : c ∉ xs := fun e => h (List.mem_cons_of_mem _ e)
    have := ih hxs
    have hlen : ¬ ((xs.length : Int) = -1) := by omega
    have e : indexOf (x :: (xs ++ c :: value)) c =
        (if x = c then 0
        else if indexOf (xs ++ c :: value) c = -1 then -1
        else indexOf (xs ++ c :: value) c + 1) := rfl
    rw [List.cons_append, e, this, if_neg hx, if_neg hlen]
    simp

theorem splitFrame_append (key value : JStr) (h : '|' ∉ key) :
    splitFrame (key ++ '|' :: value) = some (key, value) := by
  have hi := indexOf_append_sep key value '|' h
  have hne : ¬ ((key.length : Int) = -1) := by omega
  simp only [splitFrame, hi, hne, if_false, substring, substringFrom, clampIndex]
  simp

theorem splitFrame_eq_none (message : JStr) (h : '|' ∉ message) : splitFrame message = none := by
  simp [splitFrame, (indexOf_eq_neg_one_iff message '|').mpr h]

theorem splitFrame_eq_some (message key value : JStr) (h : splitFrame message = some (key, value)) :
    message = key ++ '|' :: value ∧ '|' ∉ key := by
  by_cases hm : '|' ∈ message
  · obtain ⟨k, v, rfl, hk⟩ := List.eq_append_cons_of_mem hm
    rw [splitFrame_append k v hk] at h
    simp only [Option.some.injEq, Prod.mk.injEq] at h
    obtain ⟨rfl, rfl⟩ := h
    exact ⟨rfl, hk⟩
  · rw [splitFrame_eq_none message hm] at h
    exact absurd h (by simp)

theorem stripPrefix_append (config : Config) (rest : JStr) :
    stripPrefix config (prefixOrEmpty config ++ rest) = some rest := by
  unfold stripPrefix startsWith slice prefixOrEmpty prefixLength
  cases config.websocketPrefix with
  | none => simp
  | some p =>
    have h : (p.isPrefixOf (p ++ rest)) = true := by
      rw [List.isPrefixOf_iff_prefix]; exact List.prefix_append p rest
    have hneg : ¬ ((p.length : Int) < 0) := by omega
    have hmin : min (p.length : Int) ((p ++ rest).length : Int) = p.length := by
      simp
    simp only [h, Bool.not_true, Bool.false_eq_true, if_false, hneg, hmin, Int.toNat_ofNat,
      List.drop_left]

theorem stripPrefix_eq_none (config : Config) (key : JStr)
    (h : startsWith key (prefixOrEmpty config) = false) : stripPrefix config key = none := by
  simp [stripPrefix, h]

theorem startsWith_iff (key p : JStr) : startsWith key p = true ↔ ∃ rest, key = p ++ rest := by
  unfold startsWith
  rw [List.isPrefixOf_iff_prefix]
  constructor
  · rintro ⟨t, rfl⟩; exact ⟨t, rfl⟩
  · rintro ⟨t, rfl⟩; exact ⟨t, rfl⟩

/-! ## The inbound handler -/

theorem split_of_not_mem (key : JStr) (sep : Char) (h : sep ∉ key) : split key sep = [key] := by
  induction key with
  | nil => rfl
  | cons c cs ih =>
    have hc : ¬ c = sep := fun e => h (by simp [e])
    have hcs : sep ∉ cs := fun e => h (List.mem_cons_of_mem _ e)
    simp [split, hc, ih hcs]

theorem stripPrefix_of_startsWith (config : Config) (key : JStr)
    (h : startsWith key (prefixOrEmpty config) = true) :
    stripPrefix config key = some (key.drop (prefixOrEmpty config).length) := by
  obtain ⟨rest, rfl⟩ := (startsWith_iff _ _).mp h
  rw [stripPrefix_append, List.drop_left]

theorem onMessageWith_accepted {V : Type} (parse : JStr → Option V) (ofString : JStr → V)
    (config : Config) (runApi : DispatcherOf V) (key value : JStr)
    (hkey : '|' ∉ key) (hpre : startsWith key (prefixOrEmpty config) = true) :
    (onMessageWith parse ofString config runApi (key ++ '|' :: value)).calls =
      [{ eventName := (route (key.drop (prefixOrEmpty config).length)).1,
         target := (route (key.drop (prefixOrEmpty config).length)).2,
         payload := parsePayloadWith parse ofString value }] := by
  simp only [onMessageWith, splitFrame_append key value hkey,
    stripPrefix_of_startsWith config key hpre]
  cases runApi _ _ _ <;> rfl

theorem split_append_sep (s r : JStr) (sep : Char) (h : sep ∉ s) :
    split (s ++ sep :: r) sep = s :: split r sep := by
  induction s with
  | nil => simp [split]
  | cons c cs ih =>
    have hc : ¬ c = sep := fun e => h (by simp [e])
    have hcs : sep ∉ cs := fun e => h (List.mem_cons_of_mem _ e)
    have e : split (c :: (cs ++ sep :: r)) sep =
        (match split (cs ++ sep :: r) sep with
          | [] => [[c]]
          | seg :: rest => (c :: seg) :: rest) := by
      rw [split]; simp only [hc, if_false]
    rw [List.cons_append, e, ih hcs]

theorem intercalate_cons_cons (sep x y : JStr) (rest : List JStr) :
    List.intercalate sep (x :: y :: rest) = x ++ sep ++ List.intercalate sep (y :: rest) := by
  simp [List.intercalate, List.intersperse]

theorem split_intercalate (segs : List JStr) (sep : Char) (hne : segs ≠ [])
    (h : ∀ s ∈ segs, sep ∉ s) : split (List.intercalate [sep] segs) sep = segs := by
  induction segs with
  | nil => exact absurd rfl hne
  | cons x xs ih =>
    cases xs with
    | nil =>
      have e : List.intercalate [sep] [x] = x := by simp [List.intercalate, List.intersperse]
      rw [e]
      exact split_of_not_mem x sep (h x (List.mem_cons_self _ _))
    | cons y ys =>
      rw [intercalate_cons_cons, List.append_assoc, List.singleton_append,
        split_append_sep _ _ _ (h x (List.mem_cons_self _ _)),
        ih (by simp) (fun s hs => h s (List.mem_cons_of_mem _ hs))]

theorem join_eq_intercalate (sep : JStr) (xs : List JStr) :
    join xs sep = List.intercalate sep xs := by
  induction xs with
  | nil => simp [join, List.intercalate]
  | cons x xs ih =>
    cases xs with
    | nil => simp [join, List.intercalate, List.intersperse]
    | cons y ys => rw [join, ih, intercalate_cons_cons]

theorem onMessage_accepted (config : Config) (runApi : Dispatcher) (key value : JStr)
    (hkey : '|' ∉ key) (hpre : startsWith key (prefixOrEmpty config) = true) :
    (onMessage config runApi (key ++ '|' :: value)).calls =
      [{ eventName := (route (key.drop (prefixOrEmpty config).length)).1,
         target := (route (key.drop (prefixOrEmpty config).length)).2,
         payload := parsePayload value }] := by
  simp only [onMessage, onMessageWith, splitFrame_append key value hkey,
    stripPrefix_of_startsWith config key hpre]
  cases runApi _ _ _ <;> rfl

theorem onMessage_completes (config : Config) (runApi : Dispatcher) (key value : JStr)
    (hkey : '|' ∉ key) (hpre : startsWith key (prefixOrEmpty config) = true)
    (hrun : runApi (route (key.drop (prefixOrEmpty config).length)).1
      (route (key.drop (prefixOrEmpty config).length)).2 (parsePayload value) = none) :
    (onMessage config runApi (key ++ '|' :: value)).raised = none ∧
      (onMessage config runApi (key ++ '|' :: value)).errors = [] := by
  simp only [parsePayload] at hrun
  constructor <;>
    simp only [onMessage, onMessageWith, splitFrame_append key value hkey,
      stripPrefix_of_startsWith config key hpre, hrun]

/-- C3 (valid call dispatch). Let `JSON.parse` be any function `parse` of texts (`none`
when it throws).  A frame `key|value` whose key holds no `|`, starts with the configured
text and, once stripped, is the segments `s0, s1, rest…` (none of them holding `/`)
written with `/` between them, makes the handler call the dispatcher exactly once, with
`eventName = s0 + "/" + s1`, `target` the segments `rest…` written with `/` between them
(empty when there are none), and `payload` the JSON decoding of `value` when it parses,
else `value` itself as a string. -/
theorem valid_call_dispatch {V : Type} (parse : JStr → Option V) (ofString : JStr → V)
    (config : Config) (runApi : DispatcherOf V) (key value s0 s1 : JStr) (rest : List JStr)
    (hkey : '|' ∉ key) (hpre : prefixOrEmpty config <+: key)
    (hseg : key.drop (prefixOrEmpty config).length =
      List.intercalate ['/'] (s0 :: s1 :: rest))
    (hfree : ∀ s ∈ s0 :: s1 :: rest, '/' ∉ s) :
    (onMessageWith parse ofString config runApi (key ++ '|' :: value)).calls =
      [{ eventName := s0 ++ '/' :: s1
         target := List.intercalate ['/'] rest
         payload := match parse value with
           | some v => v
           | none => ofString value }] := by
  have hsw : startsWith key (prefixOrEmpty config) = true := by
    unfold startsWith; rw [List.isPrefixOf_iff_prefix]; exact hpre
  have hsplit : split (key.drop (prefixOrEmpty config).length) '/' = s0 :: s1 :: rest := by
    rw [hseg]; exact split_intercalate _ '/' (by simp) hfree
  rw [onMessageWith_accepted parse ofString config runApi key value hkey hsw]
  simp only [route, hsplit, List.head?_cons, List.tail_cons, toStringJS, parsePayloadWith,
    join_eq_intercalate]

/-- The scenarios of C3, with the text `app:` configured and the model of `JSON.parse`:
the frame `app:foo/bar/baz|{"x":1}` is dispatched as `("foo/bar", "baz", {x: 1})`; the
frame `app:foo/bar|hello` carries the payload `"hello"` as a string and an empty target;
the frame `app:foo/bar/a//b/|[1]` has the target `a//b/`, empty segments kept. -/
theorem valid_call_dispatch_witness :
    (onMessage ⟨[], some "app:".toList, false⟩ (fun _ _ _ => none)
        "app:foo/bar/baz|\x7b\"x\":1\x7d".toList).calls =
      [{ eventName := "foo/bar".toList, target := "baz".toList,
         payload := Json.obj [("x".toList, Json.num ⟨false, [1], 1⟩)] }] ∧
    (onMessage ⟨[], some "app:".toList, false⟩ (fun _ _ _ => none)
        "app:foo/bar|hello".toList).calls =
      [{ eventName := "foo/bar".toList, target := [], payload := Json.str "hello".toList }] ∧
    (onMessage ⟨[], some "app:".toList, false⟩ (fun _ _ _ => none)
        "app:foo/bar/a//b/|[1]".toList).calls =
      [{ eventName := "foo/bar".toList, target := "a//b/".toList,
         payload := Json.arr [Json.num ⟨false, [1], 1⟩] }] :=
  ⟨valid_call_dispatch JSON.parse Json.str ⟨[], some "app:".toList, false⟩ (fun _ _ _ => none)
      "app:foo/bar/baz".toList "\x7b\"x\":1\x7d".toList "foo".toList "bar".toList
      ["baz".toList] (by decide) (by decide) (by decide) (by decide),
    valid_call_dispatch JSON.parse Json.str ⟨[], some "app:".toList, false⟩ (fun _ _ _ => none)
      "app:foo/bar".toList "hello".toList "foo".toList "bar".toList [] (by decide) (by decide)
      (by decide) (by decide),
    valid_call_dispatch JSON.parse Json.str ⟨[], some "app:".toList, false⟩ (fun _ _ _ => none)
      "app:foo/bar/a//b/".toList "[1]".toList "foo".toList "bar".toList
      ["a".toList, [], "b".toList, []] (by decide) (by decide) (by decide) (by decide)⟩

/-- C4 at its failing input. With `app:` configured, the frame `app:foo|hello` holds a
`|`, passes the filter, and its stripped key `foo` has a single segment.  The handler
does not drop it: `api` is missing, `plugin + "/" + api` is the text `foo/undefined`,
and the dispatcher is called once, with that name, an empty target and the payload
`"hello"`. -/
theorem short_key_not_dropped :
    splitFrame "app:foo|hello".toList = some ("app:foo".toList, "hello".toList) ∧
    stripPrefix ⟨[], some "app:".toList, false⟩ "app:foo".toList = some "foo".toList ∧
    split "foo".toList '/' = ["foo".toList] ∧
    (onMessage ⟨[], some "app:".toList, false⟩ (fun _ _ _ => none) "app:foo|hello".toList).calls ≠
      [] ∧
    (onMessage ⟨[], some "app:".toList, false⟩ (fun _ _ _ => none) "app:foo|hello".toList).calls =
      [{ eventName := "foo/undefined".toList, target := [],
         payload := Json.str "hello".toList }] := by
  decide

/-- C5 (filter on the configured text). A frame whose key does not start with the
configured text makes the handler return at once: no dispatcher call, nothing logged as
an error, no fault.  Conversely every frame that leads to a dispatcher call has a key
that starts with the configured text. -/
theorem prefix_filter (config : Config) (runApi : Dispatcher) (key value : JStr)
    (hkey : '|' ∉ key) (hpre : ¬ prefixOrEmpty config <+: key) :
    onMessage config runApi (key ++ '|' :: value) = { calls := [], errors := [], raised := none } ∧
    ∀ message, (onMessage config runApi message).calls ≠ [] →
      ∃ k v, message = k ++ '|' :: v ∧ '|' ∉ k ∧ prefixOrEmpty config <+: k := by
  constructor
  · have hsw : startsWith key (prefixOrEmpty config) = false := by
      unfold startsWith
      rw [Bool.eq_false_iff, Ne, List.isPrefixOf_iff_prefix]
      exact hpre
    simp only [onMessage, onMessageWith, splitFrame_append key value hkey, stripPrefix_eq_none config key hsw]
  · intro message hcalls
    cases hs : splitFrame message with
    | none => simp [onMessage, onMessageWith, hs] at hcalls
    | some kv =>
      obtain ⟨k, v⟩ := kv
      obtain ⟨rfl, hk⟩ := splitFrame_eq_some message k v hs
      refine ⟨k, v, rfl, hk, ?_⟩
      by_contra hnot
      have hsw : startsWith k (prefixOrEmpty config) = false := by
        unfold startsWith
        rw [Bool.eq_false_iff, Ne, List.isPrefixOf_iff_prefix]
        exact hnot
      simp [onMessage, onMessageWith, hs, stripPrefix_eq_none config k hsw] at hcalls

/-- C5 at the frame `other:foo/bar|1` with `app:` configured. -/
theorem prefix_filter_witness :
    onMessage ⟨[], some "app:".toList, false⟩ (fun _ _ _ => none) "other:foo/bar|1".toList =
      { calls := [], errors := [], raised := none } :=
  (prefix_filter ⟨[], some "app:".toList, false⟩ (fun _ _ _ => none) "other:foo/bar".toList
    "1".toList (by decide) (by decide)).1

/-- C6 (no separator). A frame without `|`, whatever is configured, makes the handler
return at once: no dispatcher call, no fault, and the event leaves the whole state
(`ws`, `retryTimeout`, transports, timers) as it was. -/
theorem no_separator_drop (config : Config) (runApi : Dispatcher) (w : World) (i : Nat)
    (message : JStr) (hsep : '|' ∉ message) (hi : i < w.sockets.length) :
    onMessage config runApi message = { calls := [], errors := [], raised := none } ∧
    step config runApi w (.message i message) =
      some (w, { calls := [], errors := [], raised := none }) := by
  have h : onMessage config runApi message = { calls := [], errors := [], raised := none } := by
    simp only [onMessage, onMessageWith, splitFrame_eq_none message hsep]
  exact ⟨h, by simp [step, hi, h]⟩

/-- C6 at the frame `pluginApiNoSeparator`, delivered on the first transport. -/
theorem no_separator_drop_witness :
    onMessage ⟨[], some "app:".toList, false⟩ (fun _ _ _ => none)
        "pluginApiNoSeparator".toList = { calls := [], errors := [], raised := none } ∧
    step ⟨[], some "app:".toList, false⟩ (fun _ _ _ => none)
        (onInitialize ⟨[], some "app:".toList, false⟩ World.initial)
        (.message 0 "pluginApiNoSeparator".toList) =
      some (onInitialize ⟨[], some "app:".toList, false⟩ World.initial,
        { calls := [], errors := [], raised := none }) :=
  no_separator_drop ⟨[], some "app:".toList, false⟩ (fun _ _ _ => none)
    (onInitialize ⟨[], some "app:".toList, false⟩ World.initial) 0
    "pluginApiNoSeparator".toList (by decide) (by decide)

/-! ## The reconnect machine -/

theorem singleRetry_onInitialize (config : Config) :
    SingleRetry (onInitialize config World.initial) :=
  Or.inl ⟨rfl, rfl⟩

theorem singleRetry_setReadyState (w : World) (i state : Nat) (h : SingleRetry w) :
    SingleRetry (setReadyState w i state) := h

theorem singleRetry_scheduleReconnect (w : World) (h : SingleRetry w) :
    SingleRetry (scheduleReconnect w) := by
  unfold scheduleReconnect
  by_cases ht : w.retryTimeout.truthy = true
  · simpa [ht] using h
  · rcases h with ⟨_, hnil⟩ | ⟨t, hr, _⟩
    · simp only [ht, Bool.false_eq_true, if_false]
      exact Or.inr ⟨w.timersCreated, rfl, by simp [hnil]⟩
    · simp [hr, TimerRef.truthy] at ht

theorem singleRetry_step (config : Config) (runApi : Dispatcher) (w w2 : World) (e : Event)
    (out : Handled) (h : SingleRetry w) (hstep : step config runApi w e = some (w2, out)) :
    SingleRetry w2 := by
  cases e with
  | opened i =>
    simp only [step] at hstep
    split_ifs at hstep
    simp only [Option.some.injEq, Prod.mk.injEq] at hstep
    rw [← hstep.1]; exact singleRetry_setReadyState w i _ h
  | closed i =>
    simp only [step] at hstep
    split_ifs at hstep
    simp only [Option.some.injEq, Prod.mk.injEq] at hstep
    rw [← hstep.1]
    exact singleRetry_scheduleReconnect _ (singleRetry_setReadyState w i _ h)
  | errored i =>
    simp only [step] at hstep
    split_ifs at hstep
    simp only [Option.some.injEq, Prod.mk.injEq] at hstep
    rw [← hstep.1]
    exact singleRetry_scheduleReconnect _ (singleRetry_setReadyState w i _ h)
  | message i data =>
    simp only [step] at hstep
    split_ifs at hstep
    simp only [Option.some.injEq, Prod.mk.injEq] at hstep
    rw [← hstep.1]; exact h
  | timerFired t =>
    simp only [step] at hstep
    split_ifs at hstep with hany
    simp only [Option.some.injEq, Prod.mk.injEq] at hstep
    rw [← hstep.1]
    rcases h with ⟨_, hnil⟩ | ⟨t0, _, htim⟩
    · simp [hnil] at hany
    · have ht : t0 = t := by simpa [htim] using hany
      refine Or.inl ⟨rfl, ?_⟩
      simp [retryCallback, connect, htim, ht]

theorem singleRetry_run (config : Config) (runApi : Dispatcher) (events : List Event) :
    ∀ w w2 : World, SingleRetry w → run config runApi w events = some w2 → SingleRetry w2 := by
  induction events with
  | nil =>
    intro w w2 h hrun
    simp only [run, Option.some.injEq] at hrun
    rw [← hrun]; exact h
  | cons e es ih =>
    intro w w2 h hrun
    simp only [run] at hrun
    cases hs : step config runApi w e with
    | none => simp [hs] at hrun
    | some r =>
      obtain ⟨w1, out⟩ := r
      simp only [hs] at hrun
      exact ih w1 w2 (singleRetry_step config runApi w w1 e out h hs) hrun

theorem scheduleReconnect_pending (w : World) (h : w.retryTimeout.truthy = true) :
    scheduleReconnect w = w := by
  simp [scheduleReconnect, h]

theorem closeOrError_pending (config : Config) (runApi : Dispatcher) (burst : List Event) :
    ∀ w w2 : World, w.retryTimeout.truthy = true → (∀ e ∈ burst, e.isCloseOrError = true) →
      run config runApi w burst = some w2 →
      w2.timers = w.timers ∧ w2.timersCreated = w.timersCreated ∧
        w2.retryTimeout = w.retryTimeout ∧ w2.ws = w.ws ∧
        w2.sockets.length = w.sockets.length := by
  induction burst with
  | nil =>
    intro w w2 _ _ hrun
    simp only [run, Option.some.injEq] at hrun
    subst hrun
    exact ⟨rfl, rfl, rfl, rfl, rfl⟩
  | cons e es ih =>
    intro w w2 hp hall hrun
    have he := hall e (List.mem_cons_self _ _)
    have hes : ∀ x ∈ es, x.isCloseOrError = true := fun x hx => hall x (List.mem_cons_of_mem _ hx)
    have key : ∀ i state, i < w.sockets.length →
        run config runApi (scheduleReconnect (setReadyState w i state)) es = some w2 →
        w2.timers = w.timers ∧ w2.timersCreated = w.timersCreated ∧
          w2.retryTimeout = w.retryTimeout ∧ w2.ws = w.ws ∧
          w2.sockets.length = w.sockets.length := by
      intro i state _ hrun2
      have hp2 : (setReadyState w i state).retryTimeout.truthy = true := hp
      rw [scheduleReconnect_pending _ hp2] at hrun2
      have := ih (setReadyState w i state) w2 hp2 hes hrun2
      simpa [setReadyState] using this
    cases e with
    | closed i =>
      simp only [run, step] at hrun
      split_ifs at hrun with hi
      exact key i _ hi hrun
    | errored i =>
      simp only [run, step] at hrun
      split_ifs at hrun with hi
      exact key i _ hi hrun
    | opened i => simp [Event.isCloseOrError] at he
    | message i d => simp [Event.isCloseOrError] at he
    | timerFired t => simp [Event.isCloseOrError] at he

/-- C7 (single pending retry). In every state reached from initialization by transport
`open`/`close`/`error`/`message` events and timer firings, at most one retry timer is
outstanding, and it is outstanding exactly when `retryTimeout` is truthy.  While it is,
any run of `close`/`error` events schedules no timer and opens no transport; and when a
timer fires, exactly one transport is opened, it becomes `ws`, and no timer is left. -/
theorem single_pending_retry (config : Config) (runApi : Dispatcher) (w : World)
    (hreach : Reachable config runApi w) :
    w.timers.length ≤ 1 ∧
    (w.retryTimeout.truthy = true ↔ w.timers ≠ []) ∧
    (w.retryTimeout.truthy = true → ∀ burst w2, (∀ e ∈ burst, e.isCloseOrError = true) →
      run config runApi w burst = some w2 →
      w2.timers = w.timers ∧ w2.timersCreated = w.timersCreated ∧
        w2.sockets.length = w.sockets.length) ∧
    (∀ t w2 out, step config runApi w (.timerFired t) = some (w2, out) →
      w2.sockets.length = w.sockets.length + 1 ∧ w2.ws = some w.sockets.length ∧
        w2.timers = [] ∧ w2.retryTimeout = .null) := by
  obtain ⟨events, hrun⟩ := hreach
  have hinv : SingleRetry w :=
    singleRetry_run config runApi events _ w (singleRetry_onInitialize config) hrun
  refine ⟨?_, ?_, ?_, ?_⟩
  · rcases hinv with ⟨_, hnil⟩ | ⟨t, _, htim⟩
    · simp [hnil]
    · simp [htim]
  · rcases hinv with ⟨hf, hnil⟩ | ⟨t, hr, htim⟩
    · simp [hf, hnil]
    · simp [hr, htim, TimerRef.truthy]
  · intro hp burst w2 hall hb
    obtain ⟨h1, h2, _, _, h5⟩ := closeOrError_pending config runApi burst w w2 hp hall hb
    exact ⟨h1, h2, h5⟩
  · intro t w2 out hstep
    have hinv2 := singleRetry_step config runApi w w2 _ out hinv hstep
    simp only [step] at hstep
    split_ifs at hstep with hany
    simp only [Option.some.injEq, Prod.mk.injEq] at hstep
    obtain ⟨rfl, _⟩ := hstep
    rcases hinv with ⟨_, hnil⟩ | ⟨t0, _, htim⟩
    · simp [hnil] at hany
    · have ht : t0 = t := by simpa [htim] using hany
      simp [retryCallback, connect, htim, ht]

/-- C7 after the events `error`, `close`, `close` on the first transport: the state is
reachable, one timer is outstanding, and when it fires exactly one transport is opened,
it becomes `ws`, and no timer is left. -/
theorem single_pending_retry_witness :
    (run ⟨[], none, false⟩ (fun _ _ _ => none) (onInitialize ⟨[], none, false⟩ World.initial)
        [.errored 0, .closed 0, .closed 0] =
      some { ws := some 0, retryTimeout := .timer 0,
             sockets := [{ url := "ws://".toList, readyState := 3, sent := [] }],
             timers := [{ id := 0, delay := 3000 }], timersCreated := 1 }) ∧
    ([{ id := 0, delay := 3000 }] : List Timer).length ≤ 1 ∧
    ([{ url := "ws://".toList, readyState := 3, sent := [] },
      { url := "ws://".toList, readyState := 0, sent := [] }] : List Socket).length =
        ([{ url := "ws://".toList, readyState := 3, sent := [] }] : List Socket).length + 1 :=
  ⟨by decide,
    (single_pending_retry ⟨[], none, false⟩ (fun _ _ _ => none)
      { ws := some 0, retryTimeout := .timer 0,
        sockets := [{ url := "ws://".toList, readyState := 3, sent := [] }],
        timers := [{ id := 0, delay := 3000 }], timersCreated := 1 }
      ⟨[.errored 0, .closed 0, .closed 0], by decide⟩).1,
    ((single_pending_retry ⟨[], none, false⟩ (fun _ _ _ => none)
      { ws := some 0, retryTimeout := .timer 0,
        sockets := [{ url := "ws://".toList, readyState := 3, sent := [] }],
        timers := [{ id := 0, delay := 3000 }], timersCreated := 1 }
      ⟨[.errored 0, .closed 0, .closed 0], by decide⟩).2.2.2 0
      { ws := some 1, retryTimeout := .null,
        sockets := [{ url := "ws://".toList, readyState := 3, sent := [] },
          { url := "ws://".toList, readyState := 0, sent := [] }],
        timers := [], timersCreated := 1 }
      { calls := [], errors := [], raised := none } (by decide)).1⟩

/-! ## The outbound emitter -/

theorem catchBlock_of_not_nullish (e : Thrown) (h : e.nullish = false) :
    catchBlock e = ([e], none) := by
  cases e <;> simp_all [catchBlock, messageOrError, Thrown.nullish]

theorem catchBlock_of_nullish (e : Thrown) (h : e.nullish = true) :
    catchBlock e = ([], some .typeError) := by
  cases e <;> simp_all [catchBlock, messageOrError, Thrown.nullish]

theorem openTransport_eq_some (w : World) (i : Nat) :
    openTransport w = some i ↔
      w.ws = some i ∧ ∃ socket, w.sockets.get? i = some socket ∧
        socket.readyState = WebSocket.OPEN := by
  unfold openTransport
  cases hws : w.ws with
  | none => simp
  | some j =>
    constructor
    · intro h
      simp only at h
      split at h
      · exact absurd h (by simp)
      · rename_i socket hs
        split_ifs at h with ho
        simp only [Option.some.injEq] at h
        subst h
        exact ⟨rfl, socket, hs, ho⟩
    · rintro ⟨hj, socket, hs, ho⟩
      simp only [Option.some.injEq] at hj
      subst hj
      simp only [hs, ho, if_true]

theorem openTransport_eq_none (w : World) : openTransport w = none ↔ ¬ Connected w := by
  constructor
  · rintro h ⟨i, socket, hws, hs, ho⟩
    have := (openTransport_eq_some w i).mpr ⟨hws, socket, hs, ho⟩
    rw [h] at this
    exact absurd this (by simp)
  · intro h
    cases ho : openTransport w with
    | none => rfl
    | some i =>
      obtain ⟨hws, socket, hs, hopen⟩ := (openTransport_eq_some w i).mp ho
      exact absurd ⟨i, socket, hws, hs, hopen⟩ h

theorem emitUpdate_not_connected (config : Config) (send : JStr → Option Thrown) (w : World)
    (id : JStr) (data : Data) (h : ¬ Connected w) :
    emitUpdate config send w id data = (w, { sends := [], errors := [], result := .ok data }) := by
  simp only [emitUpdate, (openTransport_eq_none w).mpr h]

theorem serialize_json (v : Json) : ∃ text, serialize (.json v) = .ok (some text) := by
  cases v <;> exact ⟨_, rfl⟩

theorem emitUpdate_connected (config : Config) (send : JStr → Option Thrown) (w : World)
    (id : JStr) (data : Data) (i : Nat) (value : Option JStr)
    (ho : openTransport w = some i) (hv : serialize data = .ok value) :
    (emitUpdate config send w id data).2.sends = [(i, frameOf config id value)] ∧
    (emitUpdate config send w id data).1.ws = w.ws ∧
    (emitUpdate config send w id data).1.retryTimeout = w.retryTimeout ∧
    (emitUpdate config send w id data).1.timers = w.timers := by
  simp only [emitUpdate, ho, hv]
  cases send (frameOf config id value) <;> exact ⟨rfl, rfl, rfl, rfl⟩

/-- C9 (send iff connected). For a JSON-representable `data`, `emitUpdate` hands a frame
to `ws.send` if and only if `ws` holds a transport whose `readyState` is `OPEN`; it then
sends exactly one frame, on that transport.  Otherwise it sends nothing, logs no error,
changes nothing and returns `data`. -/
theorem send_iff_connected (config : Config) (send : JStr → Option Thrown) (w : World)
    (id : JStr) (v : Json) :
    ((emitUpdate config send w id (.json v)).2.sends ≠ [] ↔
      ∃ i socket, w.ws = some i ∧ w.sockets.get? i = some socket ∧
        socket.readyState = WebSocket.OPEN) ∧
    ((∃ i socket, w.ws = some i ∧ w.sockets.get? i = some socket ∧
        socket.readyState = WebSocket.OPEN) →
      ∃ i frame, w.ws = some i ∧ (emitUpdate config send w id (.json v)).2.sends = [(i, frame)]) ∧
    ((¬ ∃ i socket, w.ws = some i ∧ w.sockets.get? i = some socket ∧
        socket.readyState = WebSocket.OPEN) →
      emitUpdate config send w id (.json v) =
        (w, { sends := [], errors := [], result := .ok (.json v) })) := by
  have hconn : (∃ i socket, w.ws = some i ∧ w.sockets.get? i = some socket ∧
      socket.readyState = WebSocket.OPEN) →
      ∃ i frame, w.ws = some i ∧
        (emitUpdate config send w id (.json v)).2.sends = [(i, frame)] := by
    rintro ⟨i, socket, hws, hs, ho⟩
    obtain ⟨text, hv⟩ := serialize_json v
    have hopen := (openTransport_eq_some w i).mpr ⟨hws, socket, hs, ho⟩
    exact ⟨i, _, hws, (emitUpdate_connected config send w id _ i _ hopen hv).1⟩
  refine ⟨⟨fun hne => ?_, fun hc => ?_⟩, hconn, fun hn => ?_⟩
  · by_contra hn
    rw [emitUpdate_not_connected config send w id _ hn] at hne
    exact hne rfl
  · obtain ⟨i, frame, _, hsends⟩ := hconn hc
    rw [hsends]; simp
  · exact emitUpdate_not_connected config send w id _ hn

/-- The scenario of C9: after `onInitialize` and a `close` of the transport, the module is
disconnected, and `emitUpdate(cfg, disp, "id1", {y: 2})` returns `{y: 2}`, sends nothing
and leaves the state as it was. -/
theorem send_iff_connected_witness :
    emitUpdate ⟨[], none, false⟩ (fun _ => none)
        { ws := some 0, retryTimeout := .timer 0,
          sockets := [{ url := "ws://".toList, readyState := 3, sent := [] }],
          timers := [{ id := 0, delay := 3000 }], timersCreated := 1 }
        "id1".toList (.json (.obj [("y".toList, .num ⟨false, [2], 1⟩)])) =
      ({ ws := some 0, retryTimeout := .timer 0,
         sockets := [{ url := "ws://".toList, readyState := 3, sent := [] }],
         timers := [{ id := 0, delay := 3000 }], timersCreated := 1 },
        { sends := [], errors := [],
          result := .ok (.json (.obj [("y".toList, .num ⟨false, [2], 1⟩)])) }) :=
  (send_iff_connected ⟨[], none, false⟩ (fun _ => none)
    { ws := some 0, retryTimeout := .timer 0,
      sockets := [{ url := "ws://".toList, readyState := 3, sent := [] }],
      timers := [{ id := 0, delay := 3000 }], timersCreated := 1 }
    "id1".toList (.obj [("y".toList, .num ⟨false, [2], 1⟩)])).2.2
    (by
      rintro ⟨i, socket, hws, hs, ho⟩
      simp only [Option.some.injEq] at hws
      subst hws
      simp only [List.get?_cons_zero, Option.some.injEq] at hs
      subst hs
      exact absurd ho (by decide))

/-! ## Faults -/

/-- The `message` event never changes the state: the handler reads `config` and calls
`runApi`, and assigns neither `ws` nor `retryTimeout`. -/
theorem message_keeps_state (config : Config) (runApi : Dispatcher) (w w2 : World) (i : Nat)
    (message : JStr) (out : Handled)
    (hstep : step config runApi w (.message i message) = some (w2, out)) :
    w2 = w ∧ out = onMessage config runApi message := by
  simp only [step] at hstep
  split_ifs at hstep
  simp only [Option.some.injEq, Prod.mk.injEq] at hstep
  exact ⟨hstep.1.symm, hstep.2.symm⟩

/-- The `message` event at the frame `app:foo/bar|1` on the first transport. -/
theorem message_keeps_state_witness :
    onInitialize ⟨[], some "app:".toList, false⟩ World.initial =
      onInitialize ⟨[], some "app:".toList, false⟩ World.initial ∧
    { calls := [{ eventName := "foo/bar".toList, target := [],
                  payload := .num ⟨false, [1], 1⟩ }],
      errors := [], raised := none } =
      onMessage ⟨[], some "app:".toList, false⟩ (fun _ _ _ => none) "app:foo/bar|1".toList :=
  message_keeps_state ⟨[], some "app:".toList, false⟩ (fun _ _ _ => none)
    (onInitialize ⟨[], some "app:".toList, false⟩ World.initial)
    (onInitialize ⟨[], some "app:".toList, false⟩ World.initial) 0 "app:foo/bar|1".toList
    { calls := [{ eventName := "foo/bar".toList, target := [],
                  payload := .num ⟨false, [1], 1⟩ }],
      errors := [], raised := none } (by decide)

/-- A dispatcher fault that is neither `undefined` nor `null` is caught and logged, and
the handler completes. -/
theorem dispatcher_fault_absorbed (config : Config) (runApi : Dispatcher) (key value : JStr)
    (e : Thrown) (hkey : '|' ∉ key) (hpre : prefixOrEmpty config <+: key)
    (hrun : runApi (route (key.drop (prefixOrEmpty config).length)).1
      (route (key.drop (prefixOrEmpty config).length)).2 (parsePayload value) = some e)
    (he : e.nullish = false) :
    (onMessage config runApi (key ++ '|' :: value)).raised = none ∧
      (onMessage config runApi (key ++ '|' :: value)).errors = [e] := by
  have hsw : startsWith key (prefixOrEmpty config) = true := by
    unfold startsWith; rw [List.isPrefixOf_iff_prefix]; exact hpre
  simp only [parsePayload] at hrun
  constructor <;>
    simp only [onMessage, onMessageWith, splitFrame_append key value hkey,
      stripPrefix_of_startsWith config key hsw, hrun, catchBlock_of_not_nullish e he]

/-- The handler at the frame `app:foo/bar|1` with a dispatcher that throws an `Error`. -/
theorem dispatcher_fault_absorbed_witness :
    (onMessage ⟨[], some "app:".toList, false⟩ (fun _ _ _ => some (.value (some "boom".toList)))
        "app:foo/bar|1".toList).raised = none :=
  (dispatcher_fault_absorbed ⟨[], some "app:".toList, false⟩
    (fun _ _ _ => some (.value (some "boom".toList))) "app:foo/bar".toList "1".toList
    (.value (some "boom".toList)) (by decide) (by decide) rfl rfl).1

/-- C10 at its failing input: with `app:` configured, the frame `app:foo/bar|1` and a
dispatcher whose promise rejects with `undefined`, the handler's `catch` block reads
`error.message`, which raises a `TypeError`; the handler ends with that fault and logs
nothing. -/
theorem dispatcher_nullish_fault :
    (onMessage ⟨[], some "app:".toList, false⟩ (fun _ _ _ => some .undefined)
        "app:foo/bar|1".toList).raised = some .typeError ∧
    (onMessage ⟨[], some "app:".toList, false⟩ (fun _ _ _ => some .undefined)
        "app:foo/bar|1".toList).errors = [] := by
  decide

/-- A fault of `JSON.stringify` or of `ws.send` that is neither `undefined` nor `null` is
caught: `emitUpdate` returns `data`, and neither `ws`, `retryTimeout` nor the timers
change; a frame refused by `send` is handed to it once. -/
theorem emitUpdate_returns_data (config : Config) (send : JStr → Option Thrown) (w : World)
    (id : JStr) (data : Data)
    (hser : ∀ e, serialize data = .error e → e.nullish = false)
    (hsend : ∀ message e, send message = some e → e.nullish = false) :
    (emitUpdate config send w id data).2.result = .ok data ∧
    (emitUpdate config send w id data).2.sends.length ≤ 1 ∧
    (emitUpdate config send w id data).1.ws = w.ws ∧
    (emitUpdate config send w id data).1.retryTimeout = w.retryTimeout ∧
    (emitUpdate config send w id data).1.timers = w.timers := by
  unfold emitUpdate
  cases openTransport w with
  | none => simp
  | some i =>
    cases hv : serialize data with
    | error e => simp [caught, catchBlock_of_not_nullish e (hser e hv)]
    | ok value =>
      cases hs : send (frameOf config id value) with
      | none => simp [hs, accept]
      | some e => simp [hs, caught, catchBlock_of_not_nullish e (hsend _ e hs)]

/-- The emitter on an open transport whose `send` throws an `Error`: `data` is returned. -/
theorem emitUpdate_returns_data_witness :
    (emitUpdate ⟨[], none, false⟩ (fun _ => some (.value (some "boom".toList)))
        { ws := some 0, retryTimeout := .undefined,
          sockets := [{ url := "ws://".toList, readyState := 1, sent := [] }],
          timers := [], timersCreated := 0 }
        "id1".toList (.json .null)).2.result = .ok (.json .null) :=
  (emitUpdate_returns_data ⟨[], none, false⟩ (fun _ => some (.value (some "boom".toList)))
    { ws := some 0, retryTimeout := .undefined,
      sockets := [{ url := "ws://".toList, readyState := 1, sent := [] }],
      timers := [], timersCreated := 0 }
    "id1".toList (.json .null) (fun e h => by simp [serialize] at h)
    (fun _ e h => by
      simp only [Option.some.injEq] at h
      subst h
      rfl)).1

/-- C8 at its failing input: on an open transport, with a `data` whose serialization
throws `undefined`, the `catch` block of `emitUpdate` reads `error.message`, which
raises a `TypeError`; the call ends with that fault instead of returning `data`. -/
theorem emitUpdate_nullish_fault :
    (emitUpdate ⟨[], none, false⟩ (fun _ => none)
        { ws := some 0, retryTimeout := .undefined,
          sockets := [{ url := "ws://".toList, readyState := 1, sent := [] }],
          timers := [], timersCreated := 0 }
        "id1".toList (.unserializable .undefined)).2.result = .error .typeError := by
  rfl

/-! ## Numbers: reading back what `Number::toString` writes -/

theorem digitOf_digitChar (d : Fin 10) : digitOf (digitChar d) = some d := by
  revert d; decide

theorem digitChars_append (a b : List (Fin 10)) :
    digitChars (a ++ b) = digitChars a ++ digitChars b := by
  simp [digitChars]

theorem zeros_eq (n : Nat) : zeros n = digitChars (List.replicate n 0) := by
  simp [zeros, digitChars, digitChar]

theorem digitOf_head_of_numberEnd (rest : JStr) (h : numberEnd rest = true) :
    ∀ c r, rest = c :: r → digitOf c = none := by
  intro c r hr
  subst hr
  simp only [numberEnd, Bool.and_eq_true, Option.isNone_iff_eq_none] at h
  exact h.1.1.1

theorem takeDigits_append (ds : List (Fin 10)) (rest : JStr)
    (h : ∀ c r, rest = c :: r → digitOf c = none) :
    takeDigits (digitChars ds ++ rest) = (ds, rest) := by
  induction ds with
  | nil =>
    cases rest with
    | nil => rfl
    | cons c r => simp [digitChars, takeDigits, h c r rfl]
  | cons d ds ih =>
    have : digitChars (d :: ds) ++ rest = digitChar d :: (digitChars ds ++ rest) := rfl
    rw [this, takeDigits, digitOf_digitChar]
    simp only [ih]

theorem natDigitsAux_spec (fuel : Nat) : ∀ (n : Nat) (acc : List (Fin 10)), n < fuel →
    ∃ ds, natDigitsAux fuel n acc = ds ++ acc ∧ ds ≠ [] ∧ digitsToNat ds = n := by
  induction fuel with
  | zero => intro n acc h; omega
  | succ fuel ih =>
    intro n acc hn
    unfold natDigitsAux
    by_cases h10 : n < 10
    · refine ⟨[Fin.ofNat n], by simp [h10], by simp, ?_⟩
      simp [digitsToNat, Fin.ofNat]
      omega
    · obtain ⟨ds, hds, hne, hval⟩ := ih (n / 10) (Fin.ofNat (n % 10) :: acc) (by omega)
      refine ⟨ds ++ [Fin.ofNat (n % 10)], by simp [h10, hds], by simp, ?_⟩
      simp only [digitsToNat, List.foldl_append, List.foldl_cons, List.foldl_nil] at hval ⊢
      rw [hval]
      simp [Fin.ofNat]
      omega

theorem natDigits_spec (n : Nat) : natDigits n ≠ [] ∧ digitsToNat (natDigits n) = n := by
  obtain ⟨ds, hds, hne, hval⟩ := natDigitsAux_spec (n + 1) n [] (by omega)
  simp only [List.append_nil] at hds
  rw [natDigits, hds]
  exact ⟨hne, hval⟩

theorem takeInt_nonzero (d : Fin 10) (ds : List (Fin 10)) (rest : JStr) (hd : d ≠ 0)
    (h : ∀ c r, rest = c :: r → digitOf c = none) :
    takeInt (digitChars (d :: ds) ++ rest) = some (d :: ds, rest) := by
  have : digitChars (d :: ds) ++ rest = digitChar d :: (digitChars ds ++ rest) := rfl
  rw [this, takeInt, digitOf_digitChar]
  simp only [hd, if_false, takeDigits_append ds rest h]

theorem takeInt_zero (rest : JStr) : takeInt ('0' :: rest) = some ([0], rest) := by
  rfl

theorem takeFrac_none (rest : JStr) (h : numberEnd rest = true) :
    takeFrac rest = some ([], rest) := by
  cases rest with
  | nil => rfl
  | cons c r =>
    simp only [numberEnd, Bool.and_eq_true, bne_iff_ne, ne_eq] at h
    simp [takeFrac, h.1.1.2]

theorem takeFrac_digits (ds : List (Fin 10)) (rest : JStr) (hne : ds ≠ [])
    (h : ∀ c r, rest = c :: r → digitOf c = none) :
    takeFrac ('.' :: (digitChars ds ++ rest)) = some (ds, rest) := by
  simp [takeFrac, takeDigits_append ds rest h, hne]

theorem takeExp_none (rest : JStr) (h : numberEnd rest = true) :
    takeExp rest = some (0, rest) := by
  cases rest with
  | nil => rfl
  | cons c r =>
    simp only [numberEnd, Bool.and_eq_true, bne_iff_ne, ne_eq] at h
    simp [takeExp, h.1.2, h.2]

theorem takeExp_exponentPart (e : Int) (rest : JStr)
    (h : ∀ c r, rest = c :: r → digitOf c = none) :
    takeExp (exponentPart e ++ rest) = some (e, rest) := by
  obtain ⟨hne, hval⟩ := natDigits_spec e.natAbs
  have htd := takeDigits_append (natDigits e.natAbs) rest h
  by_cases he : 0 ≤ e
  · have : exponentPart e ++ rest = 'e' :: '+' :: (digitChars (natDigits e.natAbs) ++ rest) := by
      simp [exponentPart, he]
    rw [this]
    simp only [takeExp, true_or, if_true, takeExpDigits, htd, hne, if_false, hval]
    simp only [Bool.false_eq_true, if_false, Option.some.injEq, Prod.mk.injEq, and_true]
    omega
  · have : exponentPart e ++ rest = 'e' :: '-' :: (digitChars (natDigits e.natAbs) ++ rest) := by
      simp [exponentPart, he]
    rw [this]
    have hpm : ¬ ('-' = '+') := by decide
    simp only [takeExp, true_or, if_true, hpm, if_false, takeExpDigits, htd, hne, hval]
    simp only [if_true, Option.some.injEq, Prod.mk.injEq, and_true]
    omega

theorem stripLeading_zeros (m : Nat) (d : Fin 10) (ds : List (Fin 10)) (n : Int) (hd : d ≠ 0) :
    stripLeading (List.replicate m 0 ++ d :: ds) n = (d :: ds, n - m) := by
  induction m generalizing n with
  | zero => simp [stripLeading, hd]
  | succ m ih =>
    have e : stripLeading (List.replicate (m + 1) 0 ++ d :: ds) n =
        stripLeading (List.replicate m 0 ++ d :: ds) (n - 1) := rfl
    rw [e, ih, Prod.mk.injEq]
    exact ⟨rfl, by push_cast; omega⟩

theorem stripTrailing_zeros (m : Nat) (ds : List (Fin 10)) (h : ds.getLast? ≠ some 0) :
    stripTrailing (ds ++ List.replicate m 0) = ds := by
  unfold stripTrailing
  rw [List.reverse_append, List.reverse_replicate]
  have hz : ∀ k (l : List (Fin 10)),
      List.dropWhile (fun d => decide (d = 0)) (List.replicate k 0 ++ l) =
        List.dropWhile (fun d => decide (d = 0)) l := by
    intro k l
    induction k with
    | zero => rfl
    | succ k ih => simp [List.replicate_succ, List.dropWhile, ih]
  rw [hz]
  cases hr : ds.reverse with
  | nil =>
    have : ds = [] := by simpa using hr
    simp [this]
  | cons x xs =>
    have hlast : ds.getLast? = some x := by
      rw [List.getLast?_eq_head?_reverse, hr]; rfl
    have hx : x ≠ 0 := fun e => h (by rw [hlast, e])
    rw [List.dropWhile_cons_of_neg (by simpa using hx), ← hr, List.reverse_reverse]

theorem stripTrailing_self (ds : List (Fin 10)) (h : ds.getLast? ≠ some 0) :
    stripTrailing ds = ds := by
  simpa using stripTrailing_zeros 0 ds h

theorem stripLeading_self (d : Fin 10) (ds : List (Fin 10)) (n : Int) (hd : d ≠ 0) :
    stripLeading (d :: ds) n = (d :: ds, n) := by
  simp [stripLeading, hd]

theorem mkNum_normal (neg : Bool) (d : Fin 10) (ds : List (Fin 10)) (n : Int) (hd : d ≠ 0)
    (hl : (d :: ds).getLast? ≠ some 0) :
    mkNum neg (d :: ds) n = ⟨neg, d :: ds, n⟩ := by
  simp [mkNum, stripLeading_self d ds n hd, stripTrailing_self (d :: ds) hl]

theorem parseMagnitude_eq (neg : Bool) (ip fp : List (Fin 10)) (e : Int) (s s2 s3 s4 : JStr)
    (h1 : takeInt s = some (ip, s2)) (h2 : takeFrac s2 = some (fp, s3))
    (h3 : takeExp s3 = some (e, s4)) :
    parseMagnitude neg s = some (mkNum neg (ip ++ fp) (ip.length + e), s4) := by
  simp [parseMagnitude, h1, h2, h3]

theorem digitOf_point : digitOf '.' = none := by decide

theorem digitOf_e : digitOf 'e' = none := by decide

theorem numberEnd_exponentPart (e : Int) (rest : JStr) :
    ∀ c r, exponentPart e ++ rest = c :: r → digitOf c = none := by
  intro c r h
  simp only [exponentPart, List.cons_append, List.cons.injEq] at h
  rw [← h.1]; exact digitOf_e

theorem parseMagnitude_toString (neg : Bool) (d : Fin 10) (ds : List (Fin 10)) (n : Int)
    (rest : JStr) (hd : d ≠ 0) (hl : (d :: ds).getLast? ≠ some 0)
    (hrest : numberEnd rest = true) :
    parseMagnitude neg (magnitudeToString (d :: ds) n ++ rest) =
      some (⟨neg, d :: ds, n⟩, rest) := by
  have hdig := digitOf_head_of_numberEnd rest hrest
  have hpoint : ∀ (t : JStr) c r, '.' :: t = c :: r → digitOf c = none := by
    intro t c r h
    simp only [List.cons.injEq] at h
    rw [← h.1]; exact digitOf_point
  unfold magnitudeToString
  by_cases hrange : -5 ≤ n ∧ n ≤ 21
  · simp only [hrange, and_self, if_true]
    by_cases hk : ((d :: ds).length : Int) ≤ n
    · -- digits followed by zeros
      simp only [hk, if_true]
      have htxt : digitChars (d :: ds) ++ zeros (n - ((d :: ds).length : Int)).toNat ++ rest =
          digitChars (d :: (ds ++ List.replicate (n - ((d :: ds).length : Int)).toNat 0)) ++
            rest := by
        rw [zeros_eq, ← digitChars_append]; rfl
      rw [htxt, parseMagnitude_eq neg _ [] 0 _ rest rest rest
        (takeInt_nonzero d _ rest hd hdig) (takeFrac_none rest hrest) (takeExp_none rest hrest)]
      have hm : mkNum neg (d :: (ds ++ List.replicate (n - ((d :: ds).length : Int)).toNat 0) ++ [])
          (((d :: (ds ++ List.replicate (n - ((d :: ds).length : Int)).toNat 0)).length : Int) + 0) =
          ⟨neg, d :: ds, n⟩ := by
        have hs : stripTrailing
            (d :: ds ++ List.replicate (n - ((d :: ds).length : Int)).toNat 0) = d :: ds :=
          stripTrailing_zeros _ (d :: ds) hl
        simp only [List.append_nil, mkNum, stripLeading_self d _ _ hd]
        rw [show d :: (ds ++ List.replicate (n - ((d :: ds).length : Int)).toNat 0) =
          d :: ds ++ List.replicate (n - ((d :: ds).length : Int)).toNat 0 from rfl, hs]
        simp only [reduceCtorEq, if_false, JNum.mk.injEq, true_and]
        simp only [List.length_append, List.length_cons, List.length_replicate]
        push_cast
        simp only [List.length_cons] at hk
        push_cast at hk
        omega
      rw [hm]
    · simp only [hk, if_false]
      by_cases hpos : 0 < n
      · -- digits with a point inside
        simp only [hpos, if_true]
        have hlen : n.toNat < (d :: ds).length := by
          have : ((d :: ds).length : Int) > n := by omega
          omega
        have hn1 : 0 < n.toNat := by omega
        obtain ⟨m, hm⟩ : ∃ m, n.toNat = m + 1 := ⟨n.toNat - 1, by omega⟩
        have htake : (d :: ds).take n.toNat = d :: ds.take m := by rw [hm]; rfl
        have hdrop : (d :: ds).drop n.toNat = ds.drop m := by rw [hm]; rfl
        have hdne : ds.drop m ≠ [] := by
          intro h
          have := congrArg List.length h
          simp only [List.length_drop, List.length_nil] at this
          simp only [List.length_cons] at hlen
          omega
        rw [htake, hdrop]
        have htxt : digitChars (d :: ds.take m) ++ '.' :: digitChars (ds.drop m) ++ rest =
            digitChars (d :: ds.take m) ++ ('.' :: (digitChars (ds.drop m) ++ rest)) := by
          simp
        rw [htxt, parseMagnitude_eq neg _ (ds.drop m) 0 _ _ rest rest
          (takeInt_nonzero d _ _ hd (hpoint _)) (takeFrac_digits _ rest hdne hdig)
          (takeExp_none rest hrest)]
        have hjoin : d :: ds.take m ++ ds.drop m = d :: ds := by
          simp [List.take_append_drop]
        rw [hjoin, mkNum_normal neg d ds _ hd hl]
        simp only [Option.some.injEq, Prod.mk.injEq, JNum.mk.injEq, true_and, and_true]
        simp only [List.length_cons, List.length_take]
        simp only [List.length_cons] at hlen
        push_cast
        omega
      · -- zero, point, zeros, digits
        simp only [hpos, if_false]
        have htxt : '0' :: '.' :: (zeros (-n).toNat ++ digitChars (d :: ds)) ++ rest =
            '0' :: ('.' :: (digitChars (List.replicate (-n).toNat 0 ++ d :: ds) ++ rest)) := by
          rw [zeros_eq, digitChars_append]; simp
        rw [htxt, parseMagnitude_eq neg [0] (List.replicate (-n).toNat 0 ++ d :: ds) 0 _ _ rest rest
          (takeInt_zero _) (takeFrac_digits _ rest (by simp) hdig) (takeExp_none rest hrest)]
        have hlead : stripLeading ([0] ++ (List.replicate (-n).toNat 0 ++ d :: ds))
            ((([0] : List (Fin 10)).length : Int) + 0) = (d :: ds, n) := by
          have e : [0] ++ (List.replicate (-n).toNat 0 ++ d :: ds) =
              List.replicate ((-n).toNat + 1) 0 ++ d :: ds := by
            rw [List.replicate_succ]; rfl
          rw [e, stripLeading_zeros _ d ds _ hd, Prod.mk.injEq]
          refine ⟨rfl, ?_⟩
          simp only [List.length_singleton]
          push_cast
          omega
        simp only [mkNum, hlead, stripTrailing_self (d :: ds) hl, reduceCtorEq, if_false]
  · -- scientific notation
    simp only [hrange, if_false]
    cases ds with
    | nil =>
      have htxt : digitChar d :: exponentPart (n - 1) ++ rest =
          digitChars [d] ++ (exponentPart (n - 1) ++ rest) := rfl
      rw [htxt, parseMagnitude_eq neg [d] [] (n - 1) _ _ _ rest
        (takeInt_nonzero d [] _ hd (numberEnd_exponentPart _ _))
        (by simp [exponentPart, takeFrac])
        (takeExp_exponentPart (n - 1) rest hdig)]
      rw [List.append_nil, mkNum_normal neg d [] _ hd hl]
      simp
    | cons d2 ds2 =>
      have htxt2 : digitChar d :: '.' :: (digitChars (d2 :: ds2) ++ exponentPart (n - 1)) ++ rest =
          digitChar d :: ('.' :: (digitChars (d2 :: ds2) ++ (exponentPart (n - 1) ++ rest))) := by
        simp
      have hint : takeInt (digitChar d ::
          ('.' :: (digitChars (d2 :: ds2) ++ (exponentPart (n - 1) ++ rest)))) =
          some ([d], '.' :: (digitChars (d2 :: ds2) ++ (exponentPart (n - 1) ++ rest))) :=
        takeInt_nonzero d [] _ hd (hpoint _)
      rw [htxt2, parseMagnitude_eq neg [d] (d2 :: ds2) (n - 1) _ _ _ rest hint
        (takeFrac_digits _ _ (by simp) (numberEnd_exponentPart _ _))
        (takeExp_exponentPart (n - 1) rest hdig)]
      rw [show [d] ++ d2 :: ds2 = d :: d2 :: ds2 from rfl, mkNum_normal neg d _ _ hd hl]
      simp

theorem magnitudeToString_head (d : Fin 10) (ds : List (Fin 10)) (n : Int) :
    ∃ c t, magnitudeToString (d :: ds) n = c :: t ∧ (digitOf c).isSome = true := by
  have hd : (digitOf (digitChar d)).isSome = true := by rw [digitOf_digitChar]; rfl
  unfold magnitudeToString
  by_cases hrange : -5 ≤ n ∧ n ≤ 21
  · simp only [hrange, and_self, if_true]
    by_cases hk : ((d :: ds).length : Int) ≤ n
    · simp only [hk, if_true]
      exact ⟨digitChar d, _, rfl, hd⟩
    · simp only [hk, if_false]
      by_cases hpos : 0 < n
      · simp only [hpos, if_true]
        obtain ⟨m, hm⟩ : ∃ m, n.toNat = m + 1 := ⟨n.toNat - 1, by omega⟩
        rw [hm]
        exact ⟨digitChar d, _, rfl, hd⟩
      · simp only [hpos, if_false]
        exact ⟨'0', _, rfl, by decide⟩
  · simp only [hrange, if_false]
    cases ds with
    | nil => exact ⟨digitChar d, _, rfl, hd⟩
    | cons d2 ds2 => exact ⟨digitChar d, _, rfl, hd⟩

theorem JNum.normal_cons (x : JNum) (d : Fin 10) (ds : List (Fin 10)) (h : x.normal = true)
    (hx : x.digits = d :: ds) : d ≠ 0 ∧ (d :: ds).getLast? ≠ some 0 := by
  simp only [JNum.normal, hx, Bool.and_eq_true, bne_iff_ne, ne_eq] at h
  exact h

theorem JNum.normal_nil (x : JNum) (h : x.normal = true) (hx : x.digits = []) :
    x = ⟨false, [], 0⟩ := by
  obtain ⟨neg, digits, pointPos⟩ := x
  simp only at hx
  subst hx
  simp only [JNum.normal, Bool.and_eq_true, Bool.not_eq_true', beq_iff_eq] at h
  rw [h.1, h.2]

theorem numberToString_head (x : JNum) :
    ∃ c t, numberToString x = c :: t ∧ (c = '-' ∨ (digitOf c).isSome = true) := by
  unfold numberToString
  cases hx : x.digits with
  | nil => exact ⟨'0', [], rfl, Or.inr (by decide)⟩
  | cons d ds =>
    obtain ⟨c, t, hct, hc⟩ := magnitudeToString_head d ds x.pointPos
    by_cases hneg : x.neg = true
    · exact ⟨'-', magnitudeToString (d :: ds) x.pointPos, by simp [hneg], Or.inl rfl⟩
    · exact ⟨c, t, by simp [hneg, hct], Or.inr hc⟩

theorem parseNumber_toString (x : JNum) (rest : JStr) (hx : x.normal = true)
    (hrest : numberEnd rest = true) :
    parseNumber (numberToString x ++ rest) = some (x, rest) := by
  unfold numberToString
  cases hdig : x.digits with
  | nil =>
    rw [JNum.normal_nil x hx hdig]
    have : parseNumber (['0'] ++ rest) = parseMagnitude false ('0' :: rest) := rfl
    rw [this, parseMagnitude_eq false [0] [] 0 _ rest rest rest (takeInt_zero _)
      (takeFrac_none rest hrest) (takeExp_none rest hrest)]
    rfl
  | cons d ds =>
    obtain ⟨hd, hl⟩ := JNum.normal_cons x d ds hx hdig
    have hx_eq : x = ⟨x.neg, d :: ds, x.pointPos⟩ := by
      obtain ⟨neg, digits, pointPos⟩ := x
      simp only at hdig
      rw [hdig]
    by_cases hneg : x.neg = true
    · simp only [hneg, if_true]
      have : parseNumber (['-'] ++ magnitudeToString (d :: ds) x.pointPos ++ rest) =
          parseMagnitude true (magnitudeToString (d :: ds) x.pointPos ++ rest) := rfl
      rw [this, parseMagnitude_toString true d ds _ rest hd hl hrest]
      rw [hneg] at hx_eq
      rw [← hx_eq]
    · simp only [hneg, Bool.false_eq_true, if_false, List.nil_append]
      obtain ⟨c, t, hct, hc⟩ := magnitudeToString_head d ds x.pointPos
      have hcm : ¬ c = '-' := by
        intro e
        rw [e] at hc
        exact absurd hc (by decide)
      have : parseNumber (magnitudeToString (d :: ds) x.pointPos ++ rest) =
          parseMagnitude false (magnitudeToString (d :: ds) x.pointPos ++ rest) := by
        rw [hct]
        simp [parseNumber, hcm]
      rw [this, parseMagnitude_toString false d ds _ rest hd hl hrest]
      have hn : x.neg = false := by simpa using hneg
      rw [hn] at hx_eq
      rw [← hx_eq]

/-! ## Strings: reading back what `QuoteJSONString` writes -/

theorem hexVal_hexDigitChar : ∀ m, m < 16 → hexVal (hexDigitChar m) = some m := by
  decide

theorem hex4_unicodeEscape (n : Nat) (h : n < 65536) :
    hex4 (hexDigitChar (n / 4096 % 16)) (hexDigitChar (n / 256 % 16))
      (hexDigitChar (n / 16 % 16)) (hexDigitChar (n % 16)) = some n := by
  simp only [hex4, hexVal_hexDigitChar _ (Nat.mod_lt _ (by norm_num : 16 > 0))]
  congr 1
  omega

theorem parseChars_unicodeEscape (fuel : Nat) (c : Char) (tail : JStr) (h : c.toNat < 32) :
    parseChars (fuel + 1) (unicodeEscape c.toNat ++ tail) =
      (parseChars fuel tail).map (fun p => (c :: p.1, p.2)) := by
  have hq : ¬ ('\\' = '"') := by decide
  have h4 := hex4_unicodeEscape c.toNat (by omega)
  have hs1 : ¬ (0xD800 ≤ c.toNat ∧ c.toNat ≤ 0xDBFF) := by omega
  have hs2 : ¬ (0xDC00 ≤ c.toNat ∧ c.toNat ≤ 0xDFFF) := by omega
  have e : unicodeEscape c.toNat ++ tail =
      '\\' :: 'u' :: hexDigitChar (c.toNat / 4096 % 16) :: hexDigitChar (c.toNat / 256 % 16) ::
        hexDigitChar (c.toNat / 16 % 16) :: hexDigitChar (c.toNat % 16) :: tail := rfl
  have hu : parseUnicode (hexDigitChar (c.toNat / 4096 % 16) ::
      hexDigitChar (c.toNat / 256 % 16) :: hexDigitChar (c.toNat / 16 % 16) ::
        hexDigitChar (c.toNat % 16) :: tail) = some (c, tail) := by
    simp only [parseUnicode, h4, hs1, hs2, if_false, Char.ofNat_toNat]
  have he : parseEscape ('u' :: hexDigitChar (c.toNat / 4096 % 16) ::
      hexDigitChar (c.toNat / 256 % 16) :: hexDigitChar (c.toNat / 16 % 16) ::
        hexDigitChar (c.toNat % 16) :: tail) = some (c, tail) := by
    simp only [parseEscape, if_true, hu]
  rw [e]
  simp only [parseChars, hq, if_false, if_true, he]

theorem parseChars_quoteChar (fuel : Nat) (c : Char) (tail : JStr) :
    parseChars (fuel + 1) (quoteChar c ++ tail) =
      (parseChars fuel tail).map (fun p => (c :: p.1, p.2)) := by
  unfold quoteChar
  split_ifs with h1 h2 h3 h4 h5 h6 h7 h8
  · subst h1; rfl
  · subst h2; rfl
  · subst h3; rfl
  · subst h4; rfl
  · subst h5; rfl
  · subst h6; rfl
  · subst h7; rfl
  · exact parseChars_unicodeEscape fuel c tail h8
  · show parseChars (fuel + 1) (c :: tail) = _
    simp only [parseChars, h6, h7, h8, if_false]

theorem parseChars_quoteChars (s rest : JStr) :
    ∀ fuel, s.length + 1 ≤ fuel → parseChars fuel (quoteChars s ++ '"' :: rest) = some (s, rest) := by
  induction s with
  | nil =>
    intro fuel h
    obtain ⟨f, rfl⟩ : ∃ f, fuel = f + 1 := ⟨fuel - 1, by omega⟩
    rfl
  | cons c cs ih =>
    intro fuel h
    obtain ⟨f, rfl⟩ : ∃ f, fuel = f + 1 := ⟨fuel - 1, by omega⟩
    simp only [List.length_cons] at h
    rw [quoteChars, List.append_assoc, parseChars_quoteChar, ih f (by omega)]
    rfl

theorem length_le_quoteChars (s : JStr) : s.length ≤ (quoteChars s).length := by
  induction s with
  | nil => simp [quoteChars]
  | cons c cs ih =>
    have hc : 1 ≤ (quoteChar c).length := by
      unfold quoteChar
      split_ifs <;> simp [unicodeEscape]
    simp only [quoteChars, List.length_cons, List.length_append]
    omega

theorem parseString_quoteChars (s rest : JStr) :
    parseString (quoteChars s ++ '"' :: rest) = some (s, rest) := by
  unfold parseString
  apply parseChars_quoteChars
  have := length_le_quoteChars s
  simp only [List.length_append, List.length_cons]
  omega

/-! ## Values: reading back what `JSON.stringify` writes -/

theorem digitOf_isSome_iff (c : Char) :
    (digitOf c).isSome = true ↔ 48 ≤ c.toNat ∧ c.toNat ≤ 57 := by
  unfold digitOf
  split_ifs with h <;> simp [h]

theorem stringify_head (v : Json) :
    ∃ c t, JSON.stringify v = c :: t ∧ valueStart c = true := by
  cases v with
  | null => exact ⟨'n', _, rfl, by decide⟩
  | bool b => cases b <;> exact ⟨_, _, rfl, by decide⟩
  | num n =>
    obtain ⟨c, t, h, hc⟩ := numberToString_head n
    refine ⟨c, t, by rw [JSON.stringify, h], ?_⟩
    rcases hc with rfl | hc
    · decide
    · simp [valueStart, hc]
  | str s => exact ⟨'"', _, rfl, by decide⟩
  | arr xs => cases xs <;> exact ⟨'[', _, rfl, by decide⟩
  | obj ps =>
    cases ps with
    | nil => exact ⟨'{', _, rfl, by decide⟩
    | cons p ps => obtain ⟨k, v⟩ := p; exact ⟨'{', _, rfl, by decide⟩

theorem valueStart_not_ws (c : Char) (h : valueStart c = true) : isWs c = false := by
  by_contra hw
  simp only [Bool.not_eq_false, isWs, Bool.or_eq_true, decide_eq_true_eq] at hw
  rcases hw with ((rfl | rfl) | rfl) | rfl <;> exact absurd h (by decide)

theorem valueStart_ne_close (c : Char) (h : valueStart c = true) : c ≠ ']' ∧ c ≠ '}' := by
  constructor <;> rintro rfl <;> exact absurd h (by decide)

theorem skipWs_cons (c : Char) (t : JStr) (h : isWs c = false) : skipWs (c :: t) = c :: t := by
  simp [skipWs, h]

theorem setProp_append (acc : List (JStr × Json)) (k : JStr) (v : Json)
    (h : k ∉ acc.map Prod.fst) : setProp acc k v = acc ++ [(k, v)] := by
  induction acc with
  | nil => rfl
  | cons p acc ih =>
    obtain ⟨k0, v0⟩ := p
    simp only [List.map_cons, List.mem_cons, not_or] at h
    have hk : ¬ k0 = k := fun e => h.1 e.symm
    simp only [setProp, hk, if_false, ih h.2, List.cons_append]

theorem foldl_setProp (ps : List (JStr × Json)) :
    ∀ acc : List (JStr × Json), ((acc ++ ps).map Prod.fst).Nodup →
      ps.foldl (fun acc m => setProp acc m.1 m.2) acc = acc ++ ps := by
  induction ps with
  | nil => intro acc _; simp
  | cons p ps ih =>
    intro acc h
    have hk : p.1 ∉ acc.map Prod.fst := by
      simp only [List.map_append, List.map_cons] at h
      have := (List.nodup_append.mp h).2.2
      intro hmem
      exact this hmem (List.mem_cons_self _ _)
    rw [List.foldl_cons, setProp_append acc p.1 p.2 hk, ih]
    · simp
    · simpa using h

theorem mkObject_of_nodup (ps : List (JStr × Json)) (h : (ps.map Prod.fst).Nodup) :
    mkObject ps = Json.obj ps := by
  unfold mkObject
  rw [foldl_setProp ps [] (by simpa using h)]
  rfl

theorem parseValue_null (fuel : Nat) (rest : JStr) :
    parseValue (fuel + 1) (JSON.stringify .null ++ rest) = some (.null, rest) := by
  rfl

theorem parseValue_bool (fuel : Nat) (b : Bool) (rest : JStr) :
    parseValue (fuel + 1) (JSON.stringify (.bool b) ++ rest) = some (.bool b, rest) := by
  cases b <;> rfl

theorem parseValue_str (fuel : Nat) (s rest : JStr) :
    parseValue (fuel + 1) (JSON.stringify (.str s) ++ rest) = some (.str s, rest) := by
  have e : JSON.stringify (.str s) ++ rest = '"' :: (quoteChars s ++ '"' :: rest) := by
    simp [JSON.stringify, quoteJSONString]
  rw [e, parseValue]
  simp only [skipWs_cons '"' _ (by decide), if_true, parseString_quoteChars, Option.map_some']

theorem parseValue_num (fuel : Nat) (n : JNum) (rest : JStr) (hn : n.normal = true)
    (hrest : numberEnd rest = true) :
    parseValue (fuel + 1) (JSON.stringify (.num n) ++ rest) = some (.num n, rest) := by
  obtain ⟨c, t, h, hc⟩ := numberToString_head n
  have hp := parseNumber_toString n rest hn hrest
  have e : JSON.stringify (.num n) ++ rest = c :: (t ++ rest) := by
    rw [JSON.stringify, h]; rfl
  rw [h] at hp
  have hnot : isWs c = false ∧ ¬ c = '"' ∧ ¬ c = '[' ∧ ¬ c = '{' ∧ ¬ c = 'n' ∧ ¬ c = 't' ∧
      ¬ c = 'f' := by
    rcases hc with rfl | hc
    · decide
    · refine ⟨?_, ?_, ?_, ?_, ?_, ?_, ?_⟩
      · by_contra hw
        simp only [Bool.not_eq_false, isWs, Bool.or_eq_true, decide_eq_true_eq] at hw
        rcases hw with ((rfl | rfl) | rfl) | rfl <;> exact absurd hc (by decide)
      all_goals (rintro rfl; exact absurd hc (by decide))
  obtain ⟨h0, h1, h2, h3, h4, h5, h6⟩ := hnot
  rw [e, parseValue]
  simp only [skipWs_cons c _ h0, h1, h2, h3, h4, h5, h6, if_false]
  rw [show c :: (t ++ rest) = c :: t ++ rest from rfl, hp]
  rfl

theorem Json.fuel_pos (v : Json) : 1 ≤ v.fuel := by
  cases v <;> simp [Json.fuel]

theorem numberEnd_of_cons (c : Char) (t : JStr) (h1 : digitOf c = none) (h2 : c ≠ '.')
    (h3 : c ≠ 'e') (h4 : c ≠ 'E') : numberEnd (c :: t) = true := by
  simp [numberEnd, h1, h2, h3, h4]

theorem numberEnd_stringifyTail (xs : List Json) (rest : JStr) :
    numberEnd (JSON.stringifyTail xs ++ rest) = true := by
  cases xs with
  | nil => exact numberEnd_of_cons ']' _ (by decide) (by decide) (by decide) (by decide)
  | cons x xs => exact numberEnd_of_cons ',' _ (by decide) (by decide) (by decide) (by decide)

theorem numberEnd_stringifyMembers (ps : List (JStr × Json)) (rest : JStr) :
    numberEnd (JSON.stringifyMembers ps ++ rest) = true := by
  cases ps with
  | nil => exact numberEnd_of_cons '}' _ (by decide) (by decide) (by decide) (by decide)
  | cons p ps =>
    obtain ⟨k, v⟩ := p
    exact numberEnd_of_cons ',' _ (by decide) (by decide) (by decide) (by decide)

theorem parseElems_step (fuel : Nat) (x : Json) (xs : List Json) (rest : JStr)
    (hx : parseValue fuel (JSON.stringify x ++ (JSON.stringifyTail xs ++ rest)) =
      some (x, JSON.stringifyTail xs ++ rest))
    (hxs : ∀ y ys, xs = y :: ys →
      parseElems fuel (JSON.stringify y ++ (JSON.stringifyTail ys ++ rest)) = some (y :: ys, rest)) :
    parseElems (fuel + 1) (JSON.stringify x ++ (JSON.stringifyTail xs ++ rest)) =
      some (x :: xs, rest) := by
  rw [parseElems]
  simp only [hx]
  cases xs with
  | nil =>
    have e : JSON.stringifyTail [] ++ rest = ']' :: rest := rfl
    have h1 : ¬ (']' = ',') := by decide
    simp only [e, skipWs_cons ']' _ (by decide), h1, if_false, if_true]
  | cons y ys =>
    have e : JSON.stringifyTail (y :: ys) ++ rest =
        ',' :: (JSON.stringify y ++ (JSON.stringifyTail ys ++ rest)) := by
      simp [JSON.stringifyTail]
    simp only [e, skipWs_cons ',' _ (by decide), if_true, hxs y ys rfl, Option.map_some']

theorem parseMembers_step (fuel : Nat) (k : JStr) (v : Json) (ps : List (JStr × Json))
    (rest : JStr)
    (hv : parseValue fuel (JSON.stringify v ++ (JSON.stringifyMembers ps ++ rest)) =
      some (v, JSON.stringifyMembers ps ++ rest))
    (hps : ∀ k2 v2 qs, ps = (k2, v2) :: qs →
      parseMembers fuel (quoteJSONString k2 ++
        ':' :: (JSON.stringify v2 ++ (JSON.stringifyMembers qs ++ rest))) =
        some ((k2, v2) :: qs, rest)) :
    parseMembers (fuel + 1) (quoteJSONString k ++
      ':' :: (JSON.stringify v ++ (JSON.stringifyMembers ps ++ rest))) =
      some ((k, v) :: ps, rest) := by
  have e0 : quoteJSONString k ++ ':' :: (JSON.stringify v ++ (JSON.stringifyMembers ps ++ rest)) =
      '"' :: (quoteChars k ++ '"' ::
        (':' :: (JSON.stringify v ++ (JSON.stringifyMembers ps ++ rest)))) := by
    simp [quoteJSONString]
  rw [e0, parseMembers]
  simp only [skipWs_cons '"' _ (by decide), if_true, parseString_quoteChars,
    skipWs_cons ':' _ (by decide), hv]
  cases ps with
  | nil =>
    have e : JSON.stringifyMembers [] ++ rest = '}' :: rest := rfl
    have h1 : ¬ ('}' = ',') := by decide
    simp only [e, skipWs_cons '}' _ (by decide), h1, if_false, if_true]
  | cons p qs =>
    obtain ⟨k2, v2⟩ := p
    have e : JSON.stringifyMembers ((k2, v2) :: qs) ++ rest =
        ',' :: (quoteJSONString k2 ++
          ':' :: (JSON.stringify v2 ++ (JSON.stringifyMembers qs ++ rest))) := by
      simp [JSON.stringifyMembers]
    simp only [e, skipWs_cons ',' _ (by decide), if_true, hps k2 v2 qs rfl, Option.map_some']

theorem parseValue_arr (fuel : Nat) (x : Json) (xs : List Json) (rest : JStr)
    (h : parseElems fuel (JSON.stringify x ++ (JSON.stringifyTail xs ++ rest)) =
      some (x :: xs, rest)) :
    parseValue (fuel + 1) (JSON.stringify (.arr (x :: xs)) ++ rest) =
      some (.arr (x :: xs), rest) := by
  obtain ⟨c, t, hct, hc⟩ := stringify_head x
  have e : JSON.stringify (.arr (x :: xs)) ++ rest =
      '[' :: (JSON.stringify x ++ (JSON.stringifyTail xs ++ rest)) := by
    simp [JSON.stringify]
  have hq : ¬ ('[' = '"') := by decide
  rw [e, parseValue]
  simp only [skipWs_cons '[' _ (by decide), hq, if_false, if_true]
  rw [hct] at h ⊢
  simp only [List.cons_append, skipWs_cons c _ (valueStart_not_ws c hc),
    (valueStart_ne_close c hc).1, if_false]
  simp only [List.cons_append] at h
  rw [h]
  rfl

theorem parseValue_obj (fuel : Nat) (k : JStr) (v : Json) (ps : List (JStr × Json))
    (rest : JStr) (hnodup : (((k, v) :: ps).map Prod.fst).Nodup)
    (h : parseMembers fuel (quoteJSONString k ++
      ':' :: (JSON.stringify v ++ (JSON.stringifyMembers ps ++ rest))) =
      some ((k, v) :: ps, rest)) :
    parseValue (fuel + 1) (JSON.stringify (.obj ((k, v) :: ps)) ++ rest) =
      some (.obj ((k, v) :: ps), rest) := by
  have e : JSON.stringify (.obj ((k, v) :: ps)) ++ rest =
      '{' :: ('"' :: (quoteChars k ++ '"' ::
        (':' :: (JSON.stringify v ++ (JSON.stringifyMembers ps ++ rest))))) := by
    simp [JSON.stringify, quoteJSONString]
  have e0 : quoteJSONString k ++ ':' :: (JSON.stringify v ++ (JSON.stringifyMembers ps ++ rest)) =
      '"' :: (quoteChars k ++ '"' ::
        (':' :: (JSON.stringify v ++ (JSON.stringifyMembers ps ++ rest)))) := by
    simp [quoteJSONString]
  have hq : ¬ ('{' = '"') := by decide
  have hb : ¬ ('{' = '[') := by decide
  have hc : ¬ ('"' = '}') := by decide
  rw [e0] at h
  rw [e, parseValue]
  simp only [skipWs_cons '{' _ (by decide), hq, hb, if_false, if_true,
    skipWs_cons '"' _ (by decide), hc, h, Option.map_some', mkObject_of_nodup _ hnodup]

theorem parse_stringify_aux (n : Nat) :
    (∀ v : Json, v.fuel ≤ n → v.wf = true → ∀ fuel rest, v.fuel ≤ fuel →
      numberEnd rest = true →
      parseValue fuel (JSON.stringify v ++ rest) = some (v, rest)) ∧
    (∀ (x : Json) (xs : List Json), 1 + x.fuel + Json.fuelList xs ≤ n → x.wf = true →
      Json.wfList xs = true → ∀ fuel rest, 1 + x.fuel + Json.fuelList xs ≤ fuel →
      parseElems fuel (JSON.stringify x ++ (JSON.stringifyTail xs ++ rest)) =
        some (x :: xs, rest)) ∧
    (∀ (k : JStr) (v : Json) (ps : List (JStr × Json)),
      1 + v.fuel + Json.fuelProps ps ≤ n → v.wf = true → Json.wfProps ps = true →
      ∀ fuel rest, 1 + v.fuel + Json.fuelProps ps ≤ fuel →
      parseMembers fuel (quoteJSONString k ++
        ':' :: (JSON.stringify v ++ (JSON.stringifyMembers ps ++ rest))) =
        some ((k, v) :: ps, rest)) := by
  induction n with
  | zero =>
    refine ⟨fun v h => ?_, fun x xs h => ?_, fun k v ps h => ?_⟩
    · have := Json.fuel_pos v; omega
    · omega
    · omega
  | succ n ih =>
    obtain ⟨ihV, ihE, ihM⟩ := ih
    refine ⟨?_, ?_, ?_⟩
    · intro v hn hwf fuel rest hfuel hrest
      have hpos := Json.fuel_pos v
      obtain ⟨f, rfl⟩ : ∃ f, fuel = f + 1 := ⟨fuel - 1, by omega⟩
      cases v with
      | null => exact parseValue_null f rest
      | bool b => exact parseValue_bool f b rest
      | num x => exact parseValue_num f x rest (by simpa [Json.wf] using hwf) hrest
      | str s => exact parseValue_str f s rest
      | arr xs =>
        cases xs with
        | nil => rfl
        | cons x xs =>
          simp only [Json.fuel, Json.fuelList] at hn hfuel
          simp only [Json.wf, Json.wfList, Bool.and_eq_true] at hwf
          exact parseValue_arr f x xs rest
            (ihE x xs (by omega) hwf.1 hwf.2 f rest (by omega))
      | obj ps =>
        cases ps with
        | nil => rfl
        | cons p ps =>
          obtain ⟨k, v⟩ := p
          simp only [Json.fuel, Json.fuelProps] at hn hfuel
          simp only [Json.wf, Json.wfProps, Bool.and_eq_true, decide_eq_true_eq] at hwf
          exact parseValue_obj f k v ps rest hwf.2
            (ihM k v ps (by omega) hwf.1.1 hwf.1.2 f rest (by omega))
    · intro x xs hn hx hxs fuel rest hfuel
      obtain ⟨f, rfl⟩ : ∃ f, fuel = f + 1 := ⟨fuel - 1, by omega⟩
      apply parseElems_step f x xs rest
      · exact ihV x (by omega) hx f _ (by omega) (numberEnd_stringifyTail xs rest)
      · intro y ys hy
        subst hy
        simp only [Json.fuelList] at hn hfuel
        simp only [Json.wfList, Bool.and_eq_true] at hxs
        exact ihE y ys (by omega) hxs.1 hxs.2 f rest (by omega)
    · intro k v ps hn hv hps fuel rest hfuel
      obtain ⟨f, rfl⟩ : ∃ f, fuel = f + 1 := ⟨fuel - 1, by omega⟩
      apply parseMembers_step f k v ps rest
      · exact ihV v (by omega) hv f _ (by omega) (numberEnd_stringifyMembers ps rest)
      · intro k2 v2 qs hq
        subst hq
        simp only [Json.fuelProps] at hn hfuel
        simp only [Json.wfProps, Bool.and_eq_true] at hps
        exact ihM k2 v2 qs (by omega) hps.1 hps.2 f rest (by omega)

theorem parseValue_stringify (v : Json) (hwf : v.wf = true) (fuel : Nat) (rest : JStr)
    (hfuel : v.fuel ≤ fuel) (hrest : numberEnd rest = true) :
    parseValue fuel (JSON.stringify v ++ rest) = some (v, rest) :=
  (parse_stringify_aux v.fuel).1 v (le_refl _) hwf fuel rest hfuel hrest

theorem fuel_le_length_aux (n : Nat) :
    (∀ v : Json, v.fuel ≤ n → v.fuel ≤ (JSON.stringify v).length) ∧
    (∀ xs : List Json, Json.fuelList xs ≤ n →
      Json.fuelList xs + 1 ≤ (JSON.stringifyTail xs).length) ∧
    (∀ ps : List (JStr × Json), Json.fuelProps ps ≤ n →
      Json.fuelProps ps + 1 ≤ (JSON.stringifyMembers ps).length) := by
  induction n with
  | zero =>
    refine ⟨fun v h => ?_, fun xs h => ?_, fun ps h => ?_⟩
    · have := Json.fuel_pos v; omega
    · cases xs with
      | nil => simp [Json.fuelList, JSON.stringifyTail]
      | cons x xs => simp only [Json.fuelList] at h; omega
    · cases ps with
      | nil => simp [Json.fuelProps, JSON.stringifyMembers]
      | cons p ps => obtain ⟨k, v⟩ := p; simp only [Json.fuelProps] at h; omega
  | succ n ih =>
    obtain ⟨ihV, ihE, ihM⟩ := ih
    refine ⟨?_, ?_, ?_⟩
    · intro v hn
      cases v with
      | null => simp [Json.fuel, JSON.stringify]
      | bool b => cases b <;> simp [Json.fuel, JSON.stringify]
      | num x =>
        obtain ⟨c, t, h, _⟩ := numberToString_head x
        simp [Json.fuel, JSON.stringify, h]
      | str s => simp [Json.fuel, JSON.stringify, quoteJSONString]
      | arr xs =>
        cases xs with
        | nil => simp [Json.fuel, Json.fuelList, JSON.stringify]
        | cons x xs =>
          simp only [Json.fuel, Json.fuelList] at hn ⊢
          have h1 := ihV x (by omega)
          have h2 := ihE xs (by omega)
          simp only [JSON.stringify, List.length_cons, List.length_append]
          omega
      | obj ps =>
        cases ps with
        | nil => simp [Json.fuel, Json.fuelProps, JSON.stringify]
        | cons p ps =>
          obtain ⟨k, v⟩ := p
          simp only [Json.fuel, Json.fuelProps] at hn ⊢
          have h1 := ihV v (by omega)
          have h2 := ihM ps (by omega)
          simp only [JSON.stringify, List.length_cons, List.length_append]
          omega
    · intro xs hn
      cases xs with
      | nil => simp [Json.fuelList, JSON.stringifyTail]
      | cons x xs =>
        simp only [Json.fuelList] at hn ⊢
        have h1 := ihV x (by omega)
        have h2 := ihE xs (by omega)
        simp only [JSON.stringifyTail, List.length_cons, List.length_append]
        omega
    · intro ps hn
      cases ps with
      | nil => simp [Json.fuelProps, JSON.stringifyMembers]
      | cons p ps =>
        obtain ⟨k, v⟩ := p
        simp only [Json.fuelProps] at hn ⊢
        have h1 := ihV v (by omega)
        have h2 := ihM ps (by omega)
        simp only [JSON.stringifyMembers, List.length_cons, List.length_append]
        omega

theorem fuel_le_length (v : Json) : v.fuel ≤ (JSON.stringify v).length :=
  (fuel_le_length_aux v.fuel).1 v (le_refl _)

/-- Reading back: `JSON.parse(JSON.stringify(v))` is `v`, for every well-formed value. -/
theorem parse_stringify (v : Json) (hwf : v.wf = true) :
    JSON.parse (JSON.stringify v) = some v := by
  have h := parseValue_stringify v hwf (2 * (JSON.stringify v).length + 2) []
    (by have := fuel_le_length v; omega) rfl
  rw [List.append_nil] at h
  simp [JSON.parse, h, skipWs]

/-! ## Round trips through the wire format -/

theorem frameOf_eq (config : Config) (id text : JStr) :
    frameOf config id (some text) = (prefixOrEmpty config ++ id) ++ '|' :: text := rfl

theorem decode_frameOf_with {V : Type} (parse : JStr → Option V) (ofString : JStr → V)
    (config : Config) (runApi : DispatcherOf V) (id text : JStr)
    (hp : '|' ∉ prefixOrEmpty config) (hi : '|' ∉ id) :
    splitFrame (frameOf config id (some text)) = some (prefixOrEmpty config ++ id, text) ∧
    stripPrefix config (prefixOrEmpty config ++ id) = some id ∧
    (onMessageWith parse ofString config runApi (frameOf config id (some text))).calls =
      [{ eventName := (route id).1, target := (route id).2,
         payload := parsePayloadWith parse ofString text }] := by
  have hkey : '|' ∉ prefixOrEmpty config ++ id := by
    simp only [List.mem_append, not_or]
    exact ⟨hp, hi⟩
  have hsw : startsWith (prefixOrEmpty config ++ id) (prefixOrEmpty config) = true :=
    (startsWith_iff _ _).mpr ⟨id, rfl⟩
  refine ⟨splitFrame_append _ text hkey, stripPrefix_append config id, ?_⟩
  rw [frameOf_eq, onMessageWith_accepted parse ofString config runApi _ text hkey hsw,
    List.drop_left]

theorem decode_frameOf (config : Config) (runApi : Dispatcher) (id text : JStr)
    (hp : '|' ∉ prefixOrEmpty config) (hi : '|' ∉ id) :
    splitFrame (frameOf config id (some text)) = some (prefixOrEmpty config ++ id, text) ∧
    stripPrefix config (prefixOrEmpty config ++ id) = some id ∧
    (onMessage config runApi (frameOf config id (some text))).calls =
      [{ eventName := (route id).1, target := (route id).2, payload := parsePayload text }] :=
  decode_frameOf_with JSON.parse Json.str config runApi id text hp hi

/-- C1, as the code has it. For a configured text `p` and an id `i` that hold no `|`, and
a JSON-representable value `v` that is not a string: on an open transport `emitUpdate`
sends exactly one frame; the handler configured with the same `p` splits that frame into
a key whose stripped form is `i` and a value whose parsed payload is `v`, and calls the
dispatcher with that payload. -/
theorem round_trip_json (config : Config) (send : JStr → Option Thrown) (runApi : Dispatcher)
    (w : World) (socket : Nat) (id : JStr) (v : Json)
    (hp : '|' ∉ prefixOrEmpty config) (hi : '|' ∉ id)
    (hwf : v.wf = true) (hns : ∀ s, v ≠ .str s) (hopen : openTransport w = some socket) :
    ∃ frame key value,
      (emitUpdate config send w id (.json v)).2.sends = [(socket, frame)] ∧
      splitFrame frame = some (key, value) ∧
      stripPrefix config key = some id ∧
      parsePayload value = v ∧
      (onMessage config runApi frame).calls =
        [{ eventName := (route id).1, target := (route id).2, payload := v }] := by
  have hser : serialize (.json v) = .ok (some (JSON.stringify v)) := by
    cases v with
    | str s => exact absurd rfl (hns s)
    | _ => rfl
  have hpay : parsePayload (JSON.stringify v) = v := by
    simp only [parsePayload, parsePayloadWith, parse_stringify v hwf]
  obtain ⟨h1, h2, h3⟩ := decode_frameOf config runApi id (JSON.stringify v) hp hi
  refine ⟨frameOf config id (some (JSON.stringify v)), prefixOrEmpty config ++ id,
    JSON.stringify v, (emitUpdate_connected config send w id _ socket _ hopen hser).1, h1, h2,
    hpay, ?_⟩
  rw [h3, hpay]

/-- C1 as the code has it, at `p = "app:"`, `i = "foo/bar"` and `v = {"x": [1.5, null]}`. -/
theorem round_trip_json_witness :
    ∃ frame key value,
      (emitUpdate ⟨[], some "app:".toList, false⟩ (fun _ => none)
        { ws := some 0, retryTimeout := .undefined,
          sockets := [{ url := "ws://".toList, readyState := 1, sent := [] }],
          timers := [], timersCreated := 0 }
        "foo/bar".toList
        (.json (.obj [("x".toList, .arr [.num ⟨false, [1, 5], 1⟩, .null])]))).2.sends =
        [(0, frame)] ∧
      splitFrame frame = some (key, value) ∧
      stripPrefix ⟨[], some "app:".toList, false⟩ key = some "foo/bar".toList ∧
      parsePayload value = .obj [("x".toList, .arr [.num ⟨false, [1, 5], 1⟩, .null])] ∧
      (onMessage ⟨[], some "app:".toList, false⟩ (fun _ _ _ => none) frame).calls =
        [{ eventName := (route "foo/bar".toList).1, target := (route "foo/bar".toList).2,
           payload := .obj [("x".toList, .arr [.num ⟨false, [1, 5], 1⟩, .null])] }] :=
  round_trip_json ⟨[], some "app:".toList, false⟩ (fun _ => none) (fun _ _ _ => none)
    { ws := some 0, retryTimeout := .undefined,
      sockets := [{ url := "ws://".toList, readyState := 1, sent := [] }],
      timers := [], timersCreated := 0 }
    0 "foo/bar".toList (.obj [("x".toList, .arr [.num ⟨false, [1, 5], 1⟩, .null])])
    (by decide) (by decide) (by decide) (fun s h => by cases h) rfl

/-- C1 as stated fails. With no text configured, the id `a|b` and the value `null`, the
frame is `a|b|null`: the handler cuts it at the first `|`, so the stripped key is `a`
and the payload is the string `b|null`.  With the text `x|` configured and the id `a`,
the frame is `x|a|null`: its key `x` does not start with `x|` and the frame is ignored. -/
theorem round_trip_json_fails :
    (splitFrame (frameOf ⟨[], none, false⟩ "a|b".toList (some (JSON.stringify .null))) =
        some ("a".toList, "b|null".toList) ∧
      stripPrefix ⟨[], none, false⟩ "a".toList = some "a".toList ∧
      "a".toList ≠ "a|b".toList ∧
      parsePayload "b|null".toList = .str "b|null".toList ∧
      Json.str "b|null".toList ≠ .null) ∧
    (splitFrame (frameOf ⟨[], some "x|".toList, false⟩ "a".toList
        (some (JSON.stringify .null))) = some ("x".toList, "a|null".toList) ∧
      stripPrefix ⟨[], some "x|".toList, false⟩ "x".toList = none ∧
      (onMessage ⟨[], some "x|".toList, false⟩ (fun _ _ _ => none)
        (frameOf ⟨[], some "x|".toList, false⟩ "a".toList
          (some (JSON.stringify .null)))).calls = []) := by
  decide

/-- C2, as the code has it. Let `JSON.parse` be any function `parse` of texts (`none`
when it throws).  For a configured text `p` and an id `i` that hold no `|`, and a string
`v` on which `JSON.parse` throws: on an open transport `emitUpdate` sends the frame
`p + i + "|" + v`, the handler configured with the same `p` splits it into the key
`p + i`, stripped to `i`, and the value `v`, and hands the dispatcher, in its one call, a
payload that is exactly the string `v`. -/
theorem round_trip_string {V : Type} (parse : JStr → Option V) (ofString : JStr → V)
    (config : Config) (send : JStr → Option Thrown) (runApi : DispatcherOf V)
    (w : World) (socket : Nat) (id v : JStr)
    (hp : '|' ∉ prefixOrEmpty config) (hi : '|' ∉ id)
    (hv : parse v = none) (hopen : openTransport w = some socket) :
    (emitUpdate config send w id (.json (.str v))).2.sends =
      [(socket, (prefixOrEmpty config ++ id) ++ '|' :: v)] ∧
    splitFrame ((prefixOrEmpty config ++ id) ++ '|' :: v) =
      some (prefixOrEmpty config ++ id, v) ∧
    stripPrefix config (prefixOrEmpty config ++ id) = some id ∧
    (onMessageWith parse ofString config runApi
        ((prefixOrEmpty config ++ id) ++ '|' :: v)).calls =
      [{ eventName := (route id).1, target := (route id).2, payload := ofString v }] := by
  have hpay : parsePayloadWith parse ofString v = ofString v := by
    simp only [parsePayloadWith, hv]
  obtain ⟨h1, h2, h3⟩ := decode_frameOf_with parse ofString config runApi id v hp hi
  rw [frameOf_eq] at h1 h3
  refine ⟨(emitUpdate_connected config send w id (.json (.str v)) socket (some v) hopen rfl).1,
    h1, h2, ?_⟩
  rw [h3, hpay]

/-- C2 as the code has it, at `p = "app:"`, `i = "foo/bar"` and `v = "hello"`, a text that
no JSON reader accepts: the frame sent is `app:foo/bar|hello` and the dispatcher receives
`("foo/bar", "", "hello")`. -/
theorem round_trip_string_witness :
    (emitUpdate ⟨[], some "app:".toList, false⟩ (fun _ => none)
        { ws := some 0, retryTimeout := .undefined,
          sockets := [{ url := "ws://".toList, readyState := 1, sent := [] }],
          timers := [], timersCreated := 0 }
        "foo/bar".toList (.json (.str "hello".toList))).2.sends =
      [(0, "app:foo/bar|hello".toList)] ∧
    splitFrame "app:foo/bar|hello".toList = some ("app:foo/bar".toList, "hello".toList) ∧
    stripPrefix ⟨[], some "app:".toList, false⟩ "app:foo/bar".toList = some "foo/bar".toList ∧
    (onMessage ⟨[], some "app:".toList, false⟩ (fun _ _ _ => none)
        "app:foo/bar|hello".toList).calls =
      [{ eventName := "foo/bar".toList, target := [], payload := .str "hello".toList }] :=
  round_trip_string JSON.parse Json.str ⟨[], some "app:".toList, false⟩ (fun _ => none)
    (fun _ _ _ => none)
    { ws := some 0, retryTimeout := .undefined,
      sockets := [{ url := "ws://".toList, readyState := 1, sent := [] }],
      timers := [], timersCreated := 0 }
    0 "foo/bar".toList "hello".toList (by decide) (by decide) (by decide) rfl

/-- C2 as stated fails. With no text configured and the id `foo/bar`, the string `1` is
sent as the frame `foo/bar|1`, and the handler parses the value as JSON: the payload is
the number 1, not the string.  The string `"x"` (with its quotes) comes back as the
string `x`.  And with the id `foo/bar|baz` the string `hello` comes back as
`baz|hello`. -/
theorem round_trip_string_fails :
    (emitUpdate ⟨[], none, false⟩ (fun _ => none)
        { ws := some 0, retryTimeout := .undefined,
          sockets := [{ url := "ws://".toList, readyState := 1, sent := [] }],
          timers := [], timersCreated := 0 }
        "foo/bar".toList (.json (.str "1".toList))).2.sends = [(0, "foo/bar|1".toList)] ∧
    (onMessage ⟨[], none, false⟩ (fun _ _ _ => none) "foo/bar|1".toList).calls =
      [{ eventName := "foo/bar".toList, target := [],
         payload := .num ⟨false, [1], 1⟩ }] ∧
    Json.num ⟨false, [1], 1⟩ ≠ .str "1".toList ∧
    (emitUpdate ⟨[], none, false⟩ (fun _ => none)
        { ws := some 0, retryTimeout := .undefined,
          sockets := [{ url := "ws://".toList, readyState := 1, sent := [] }],
          timers := [], timersCreated := 0 }
        "foo/bar".toList (.json (.str "\"x\"".toList))).2.sends =
      [(0, "foo/bar|\"x\"".toList)] ∧
    (onMessage ⟨[], none, false⟩ (fun _ _ _ => none) "foo/bar|\"x\"".toList).calls =
      [{ eventName := "foo/bar".toList, target := [], payload := .str "x".toList }] ∧
    Json.str "x".toList ≠ .str "\"x\"".toList ∧
    (emitUpdate ⟨[], none, false⟩ (fun _ => none)
        { ws := some 0, retryTimeout := .undefined,
          sockets := [{ url := "ws://".toList, readyState := 1, sent := [] }],
          timers := [], timersCreated := 0 }
        "foo/bar|baz".toList (.json (.str "hello".toList))).2.sends =
      [(0, "foo/bar|baz|hello".toList)] ∧
    (onMessage ⟨[], none, false⟩ (fun _ _ _ => none) "foo/bar|baz|hello".toList).calls =
      [{ eventName := "foo/bar".toList, target := [],
         payload := .str "baz|hello".toList }] := by
  decide

/-! ## The fuel of the reader is never what makes `JSON.parse` fail -/

theorem skipWs_length (s : JStr) : (skipWs s).length ≤ s.length := by
  induction s with
  | nil => simp [skipWs]
  | cons c r ih =>
    unfold skipWs
    split_ifs
    · simp only [List.length_cons]; omega
    · exact le_refl _

theorem skipWs_cons_length (s r : JStr) (c : Char) (h : skipWs s = c :: r) :
    r.length + 1 ≤ s.length := by
  have := skipWs_length s
  rw [h] at this
  simpa using this

theorem parseLowSurrogate_length (high : Nat) (s r : JStr) (c : Char)
    (h : parseLowSurrogate high s = some (c, r)) : r.length ≤ s.length := by
  unfold parseLowSurrogate at h
  split at h
  · split_ifs at h
    split at h
    · exact absurd h (by simp)
    · split_ifs at h
      simp only [Option.some.injEq, Prod.mk.injEq] at h
      rw [← h.2]; simp only [List.length_cons]; omega
  · exact absurd h (by simp)

theorem parseUnicode_length (s r : JStr) (c : Char) (h : parseUnicode s = some (c, r)) :
    r.length ≤ s.length := by
  unfold parseUnicode at h
  split at h
  · split at h
    · exact absurd h (by simp)
    · split_ifs at h
      · have := parseLowSurrogate_length _ _ _ _ h
        simp only [List.length_cons]; omega
      · simp only [Option.some.injEq, Prod.mk.injEq] at h
        rw [← h.2]; simp only [List.length_cons]; omega
  · exact absurd h (by simp)

theorem parseEscape_length (s r : JStr) (c : Char) (h : parseEscape s = some (c, r)) :
    r.length < s.length := by
  cases s with
  | nil => simp [parseEscape] at h
  | cons e t =>
    rw [parseEscape] at h
    split_ifs at h
    · have := parseUnicode_length _ _ _ h
      simp only [List.length_cons]; omega
    · split at h
      · exact absurd h (by simp)
      · simp only [Option.some.injEq, Prod.mk.injEq] at h
        rw [← h.2]; simp

theorem parseChars_length (fuel : Nat) :
    ∀ (s x r : JStr), parseChars fuel s = some (x, r) → r.length < s.length := by
  induction fuel with
  | zero => intro s x r h; simp [parseChars] at h
  | succ f ih =>
    intro s x r h
    cases s with
    | nil => simp [parseChars] at h
    | cons c t =>
      rw [parseChars] at h
      split_ifs at h with h1 h2 h3
      · simp only [Option.some.injEq, Prod.mk.injEq] at h
        rw [← h.2]; simp
      · split at h
        · exact absurd h (by simp)
        · rename_i x1 r1 he
          cases hp : parseChars f r1 with
          | none => simp [hp] at h
          | some p =>
            obtain ⟨x2, r2⟩ := p
            simp only [hp, Option.map_some', Option.some.injEq, Prod.mk.injEq] at h
            have h1 := ih r1 x2 r2 hp
            have h2 := parseEscape_length _ _ _ he
            rw [← h.2]
            simp only [List.length_cons]
            omega
      · cases hp : parseChars f t with
        | none => simp [hp] at h
        | some p =>
          obtain ⟨x2, r2⟩ := p
          simp only [hp, Option.map_some', Option.some.injEq, Prod.mk.injEq] at h
          have := ih t x2 r2 hp
          rw [← h.2]
          simp only [List.length_cons]
          omega

theorem parseString_length (s x r : JStr) (h : parseString s = some (x, r)) :
    r.length < s.length :=
  parseChars_length _ s x r h

theorem expectLit_length (lit : JStr) : ∀ (s r : JStr), expectLit lit s = some r →
    r.length ≤ s.length := by
  induction lit with
  | nil =>
    intro s r h
    cases s <;> simp [expectLit] at h <;> simp [← h]
  | cons l ls ih =>
    intro s r h
    cases s with
    | nil => simp [expectLit] at h
    | cons c t =>
      rw [expectLit] at h
      split_ifs at h
      have := ih t r h
      simp only [List.length_cons]; omega

theorem takeDigits_length (s : JStr) : (takeDigits s).2.length ≤ s.length := by
  induction s with
  | nil => simp [takeDigits]
  | cons c r ih =>
    rw [takeDigits]
    split
    · simp only [List.length_cons]; omega
    · simp

theorem takeInt_length (s r : JStr) (ds : List (Fin 10)) (h : takeInt s = some (ds, r)) :
    r.length < s.length := by
  cases s with
  | nil => simp [takeInt] at h
  | cons c t =>
    rw [takeInt] at h
    split at h
    · exact absurd h (by simp)
    · split_ifs at h
      · simp only [Option.some.injEq, Prod.mk.injEq] at h
        rw [← h.2]; simp
      · simp only [Option.some.injEq, Prod.mk.injEq] at h
        have := takeDigits_length t
        rw [← h.2]; simp only [List.length_cons]; omega

theorem takeFrac_length (s r : JStr) (ds : List (Fin 10)) (h : takeFrac s = some (ds, r)) :
    r.length ≤ s.length := by
  cases s with
  | nil => simp [takeFrac] at h; simp [h.2]
  | cons c t =>
    rw [takeFrac] at h
    split_ifs at h
    · simp only [Option.some.injEq] at h
      have := takeDigits_length t
      rw [h] at this
      simp only [List.length_cons]; simp only at this; omega
    · simp only [Option.some.injEq, Prod.mk.injEq] at h
      rw [← h.2]

theorem takeExpDigits_length (neg : Bool) (s r : JStr) (e : Int)
    (h : takeExpDigits neg s = some (e, r)) : r.length ≤ s.length := by
  unfold takeExpDigits at h
  have := takeDigits_length s
  split_ifs at h <;>
    (simp only [Option.some.injEq, Prod.mk.injEq] at h
     rw [← h.2]; exact this)

theorem takeExp_length (s r : JStr) (e : Int) (h : takeExp s = some (e, r)) :
    r.length ≤ s.length := by
  cases s with
  | nil => simp [takeExp] at h; simp [h.2]
  | cons c t =>
    simp only [takeExp] at h
    split_ifs at h
    · split at h
      · exact absurd h (by simp)
      · split_ifs at h
        · have := takeExpDigits_length _ _ _ _ h
          simp only [List.length_cons]; omega
        · have := takeExpDigits_length _ _ _ _ h
          simp only [List.length_cons]; omega
        · have := takeExpDigits_length _ _ _ _ h
          simp only [List.length_cons] at this ⊢; omega
    · simp only [Option.some.injEq, Prod.mk.injEq] at h
      rw [← h.2]

theorem parseMagnitude_length (neg : Bool) (s r : JStr) (x : JNum)
    (h : parseMagnitude neg s = some (x, r)) : r.length < s.length := by
  unfold parseMagnitude at h
  split at h
  · exact absurd h (by simp)
  · rename_i ip s2 h1
    split at h
    · exact absurd h (by simp)
    · rename_i fp s3 h2
      split at h
      · exact absurd h (by simp)
      · rename_i e s4 h3
        simp only [Option.some.injEq, Prod.mk.injEq] at h
        have a := takeInt_length _ _ _ h1
        have b := takeFrac_length _ _ _ h2
        have c := takeExp_length _ _ _ h3
        rw [← h.2]; omega

theorem parseNumber_length (s r : JStr) (x : JNum) (h : parseNumber s = some (x, r)) :
    r.length < s.length := by
  cases s with
  | nil => simp [parseNumber] at h
  | cons c t =>
    rw [parseNumber] at h
    split_ifs at h
    · have := parseMagnitude_length _ _ _ _ h
      simp only [List.length_cons]; omega
    · exact parseMagnitude_length _ _ _ _ h

theorem parse_length (fuel : Nat) :
    (∀ (s r : JStr) (v : Json), parseValue fuel s = some (v, r) → r.length < s.length) ∧
    (∀ (s r : JStr) (l : List Json), parseElems fuel s = some (l, r) → r.length < s.length) ∧
    (∀ (s r : JStr) (l : List (JStr × Json)), parseMembers fuel s = some (l, r) →
      r.length < s.length) := by
  induction fuel with
  | zero =>
    refine ⟨fun s r v h => ?_, fun s r l h => ?_, fun s r l h => ?_⟩
    · simp [parseValue] at h
    · simp [parseElems] at h
    · simp [parseMembers] at h
  | succ f ih =>
    obtain ⟨ihV, ihE, ihM⟩ := ih
    refine ⟨fun s r v h => ?_, fun s r l h => ?_, fun s r l h => ?_⟩
    · rw [parseValue] at h
      split at h
      · exact absurd h (by simp)
      · rename_i c t hs
        have hlen := skipWs_cons_length s t c hs
        split_ifs at h with h1 h2 h3 h4 h5 h6
        · -- string
          cases hp : parseString t with
          | none => simp [hp] at h
          | some p =>
            simp only [hp, Option.map_some', Option.some.injEq, Prod.mk.injEq] at h
            have := parseString_length t p.1 p.2 hp
            rw [← h.2]; omega
        · -- array
          split at h
          · exact absurd h (by simp)
          · rename_i c2 t2 hs2
            have hlen2 := skipWs_cons_length t t2 c2 hs2
            split_ifs at h
            · simp only [Option.some.injEq, Prod.mk.injEq] at h
              rw [← h.2]; omega
            · cases hp : parseElems f (c2 :: t2) with
              | none => simp [hp] at h
              | some p =>
                simp only [hp, Option.map_some', Option.some.injEq, Prod.mk.injEq] at h
                have := ihE _ p.2 p.1 hp
                simp only [List.length_cons] at this
                rw [← h.2]; omega
        · -- object
          split at h
          · exact absurd h (by simp)
          · rename_i c2 t2 hs2
            have hlen2 := skipWs_cons_length t t2 c2 hs2
            split_ifs at h
            · simp only [Option.some.injEq, Prod.mk.injEq] at h
              rw [← h.2]; omega
            · cases hp : parseMembers f (c2 :: t2) with
              | none => simp [hp] at h
              | some p =>
                simp only [hp, Option.map_some', Option.some.injEq, Prod.mk.injEq] at h
                have := ihM _ p.2 p.1 hp
                simp only [List.length_cons] at this
                rw [← h.2]; omega
        · -- null
          cases hp : expectLit ['u', 'l', 'l'] t with
          | none => simp [hp] at h
          | some p =>
            simp only [hp, Option.map_some', Option.some.injEq, Prod.mk.injEq] at h
            have := expectLit_length _ t p hp
            rw [← h.2]; omega
        · -- true
          cases hp : expectLit ['r', 'u', 'e'] t with
          | none => simp [hp] at h
          | some p =>
            simp only [hp, Option.map_some', Option.some.injEq, Prod.mk.injEq] at h
            have := expectLit_length _ t p hp
            rw [← h.2]; omega
        · -- false
          cases hp : expectLit ['a', 'l', 's', 'e'] t with
          | none => simp [hp] at h
          | some p =>
            simp only [hp, Option.map_some', Option.some.injEq, Prod.mk.injEq] at h
            have := expectLit_length _ t p hp
            rw [← h.2]; omega
        · -- number
          cases hp : parseNumber (c :: t) with
          | none => simp [hp] at h
          | some p =>
            simp only [hp, Option.map_some', Option.some.injEq, Prod.mk.injEq] at h
            have := parseNumber_length _ p.2 p.1 hp
            simp only [List.length_cons] at this
            rw [← h.2]; omega
    · rw [parseElems] at h
      split at h
      · exact absurd h (by simp)
      · rename_i v r1 hv
        have hlen := ihV s r1 v hv
        split at h
        · exact absurd h (by simp)
        · rename_i c r2 hs
          have hlen2 := skipWs_cons_length r1 r2 c hs
          split_ifs at h
          · cases hp : parseElems f r2 with
            | none => simp [hp] at h
            | some p =>
              simp only [hp, Option.map_some', Option.some.injEq, Prod.mk.injEq] at h
              have := ihE _ p.2 p.1 hp
              rw [← h.2]; omega
          · simp only [Option.some.injEq, Prod.mk.injEq] at h
            rw [← h.2]; omega
    · rw [parseMembers] at h
      split at h
      · exact absurd h (by simp)
      · rename_i q t hs
        have hlen := skipWs_cons_length s t q hs
        split_ifs at h
        split at h
        · exact absurd h (by simp)
        · rename_i k r1 hk
          have hlen1 := parseString_length t k r1 hk
          split at h
          · exact absurd h (by simp)
          · rename_i colon r2 hs2
            have hlen2 := skipWs_cons_length r1 r2 colon hs2
            split_ifs at h
            split at h
            · exact absurd h (by simp)
            · rename_i v r3 hv
              have hlen3 := ihV r2 r3 v hv
              split at h
              · exact absurd h (by simp)
              · rename_i c r4 hs4
                have hlen4 := skipWs_cons_length r3 r4 c hs4
                split_ifs at h
                · cases hp : parseMembers f r4 with
                  | none => simp [hp] at h
                  | some p =>
                    simp only [hp, Option.map_some', Option.some.injEq, Prod.mk.injEq] at h
                    have := ihM _ p.2 p.1 hp
                    rw [← h.2]; omega
                · simp only [Option.some.injEq, Prod.mk.injEq] at h
                  rw [← h.2]; omega

theorem parse_transfer (fuel : Nat) :
    (∀ (s : JStr) (p : Json × JStr) (f : Nat), parseValue fuel s = some p →
      2 * s.length + 2 ≤ f → parseValue f s = some p) ∧
    (∀ (s : JStr) (p : List Json × JStr) (f : Nat), parseElems fuel s = some p →
      2 * s.length + 3 ≤ f → parseElems f s = some p) ∧
    (∀ (s : JStr) (p : List (JStr × Json) × JStr) (f : Nat), parseMembers fuel s = some p →
      2 * s.length + 3 ≤ f → parseMembers f s = some p) := by
  induction fuel with
  | zero =>
    refine ⟨fun s p f h => ?_, fun s p f h => ?_, fun s p f h => ?_⟩
    · simp [parseValue] at h
    · simp [parseElems] at h
    · simp [parseMembers] at h
  | succ F ih =>
    obtain ⟨ihV, ihE, ihM⟩ := ih
    refine ⟨fun s p f h hf => ?_, fun s p f h hf => ?_, fun s p f h hf => ?_⟩
    · obtain ⟨g, rfl⟩ : ∃ g, f = g + 1 := ⟨f - 1, by omega⟩
      rw [parseValue] at h ⊢
      split at h
      · exact absurd h (by simp)
      · rename_i c t hs
        have hlen := skipWs_cons_length s t c hs
        split_ifs at h with h1 h2 h3 h4 h5 h6
        · simp only [h1, if_true]; exact h
        · simp only [h1, h2, if_true, if_false]
          split at h
          · exact absurd h (by simp)
          · rename_i c2 t2 hs2
            have hlen2 := skipWs_cons_length t t2 c2 hs2
            split_ifs at h with h7
            · simp only [h7, if_true]; exact h
            · simp only [h7, if_false]
              cases hp : parseElems F (c2 :: t2) with
              | none => simp [hp] at h
              | some q =>
                rw [ihE _ q g hp (by simp only [List.length_cons]; omega)]
                rw [hp] at h
                exact h
        · simp only [h1, h2, h3, if_true, if_false]
          split at h
          · exact absurd h (by simp)
          · rename_i c2 t2 hs2
            have hlen2 := skipWs_cons_length t t2 c2 hs2
            split_ifs at h with h7
            · simp only [h7, if_true]; exact h
            · simp only [h7, if_false]
              cases hp : parseMembers F (c2 :: t2) with
              | none => simp [hp] at h
              | some q =>
                rw [ihM _ q g hp (by simp only [List.length_cons]; omega)]
                rw [hp] at h
                exact h
        · simp only [h1, h2, h3, h4, if_true, if_false]; exact h
        · simp only [h1, h2, h3, h4, h5, if_true, if_false]; exact h
        · simp only [h1, h2, h3, h4, h5, h6, if_true, if_false]; exact h
        · simp only [h1, h2, h3, h4, h5, h6, if_false]; exact h
    · obtain ⟨g, rfl⟩ : ∃ g, f = g + 1 := ⟨f - 1, by omega⟩
      rw [parseElems] at h ⊢
      split at h
      · exact absurd h (by simp)
      · rename_i v r1 hv
        have hlen := (parse_length F).1 s r1 v hv
        rw [ihV s (v, r1) g hv (by omega)]
        simp only
        split at h
        · exact absurd h (by simp)
        · rename_i c r2 hs
          have hlen2 := skipWs_cons_length r1 r2 c hs
          split_ifs at h with h1 h2
          · simp only [h1, if_true]
            cases hp : parseElems F r2 with
            | none => simp [hp] at h
            | some q =>
              rw [ihE _ q g hp (by omega)]
              rw [hp] at h
              exact h
          · simp only [h1, h2, if_true, if_false]; exact h
    · obtain ⟨g, rfl⟩ : ∃ g, f = g + 1 := ⟨f - 1, by omega⟩
      rw [parseMembers] at h ⊢
      split at h
      · exact absurd h (by simp)
      · rename_i q t hs
        have hlen := skipWs_cons_length s t q hs
        split_ifs at h with hq
        simp only [hq, if_true]
        split at h
        · exact absurd h (by simp)
        · rename_i k r1 hk
          have hlen1 := parseString_length t k r1 hk
          split at h
          · exact absurd h (by simp)
          · rename_i colon r2 hs2
            have hlen2 := skipWs_cons_length r1 r2 colon hs2
            split_ifs at h with hc
            simp only [hc, if_true]
            split at h
            · exact absurd h (by simp)
            · rename_i v r3 hv
              have hlen3 := (parse_length F).1 r2 r3 v hv
              rw [ihV r2 (v, r3) g hv (by omega)]
              simp only
              split at h
              · exact absurd h (by simp)
              · rename_i c r4 hs4
                have hlen4 := skipWs_cons_length r3 r4 c hs4
                split_ifs at h with h1 h2
                · simp only [h1, if_true]
                  cases hp : parseMembers F r4 with
                  | none => simp [hp] at h
                  | some m =>
                    rw [ihM _ m g hp (by omega)]
                    rw [hp] at h
                    exact h
                · simp only [h1, h2, if_true, if_false]; exact h

/-- More fuel than `2 * length + 2` changes nothing: the fuel `JSON.parse` gives the
reader is never what makes it fail. -/
theorem parseValue_fuel (text : JStr) (fuel : Nat) (h : 2 * text.length + 2 ≤ fuel) :
    parseValue fuel text = parseValue (2 * text.length + 2) text := by
  cases hp : parseValue (2 * text.length + 2) text with
  | some p => exact (parse_transfer _).1 text p fuel hp h
  | none =>
    cases hq : parseValue fuel text with
    | none => rfl
    | some p =>
      have := (parse_transfer _).1 text p (2 * text.length + 2) hq (le_refl _)
      rw [hp] at this
      exact absurd this (by simp)

/-! ## The wire format: shape of a frame, cut of a frame -/

theorem frameOf_toStringJS (config : Config) (id : JStr) (value : Option JStr) :
    frameOf config id value = frameOf config id (some (toStringJS value)) := by
  cases value <;> rfl

/-- C11 (encoded frame shape). On an open transport, for a JSON-representable `data`,
`emitUpdate` sends exactly one frame, and it is `p + id + "|" + s`: `p` is the configured
text, or empty when none is configured; `s` is `data` itself when it is a string and
`JSON.stringify(data)` otherwise.  Building `s` never fails for such a `data`.  For a
`data` that `JSON.stringify` maps to `undefined` the frame ends in the text `undefined`. -/
theorem encoded_frame_shape (config : Config) (send : JStr → Option Thrown) (w : World)
    (socket : Nat) (id : JStr) (v : Json) (hopen : openTransport w = some socket) :
    (emitUpdate config send w id (.json v)).2.sends =
      [(socket,
        (match config.websocketPrefix with
          | none => []
          | some p => p) ++ id ++ '|' ::
        (match v with
          | .str s => s
          | other => JSON.stringify other))] ∧
    (∃ s, serialize (.json v) = .ok (some s)) ∧
    (emitUpdate config send w id .undefined).2.sends =
      [(socket,
        (match config.websocketPrefix with
          | none => []
          | some p => p) ++ id ++ "|undefined".toList)] := by
  have hser : serialize (.json v) = .ok (some (match v with
      | .str s => s
      | other => JSON.stringify other)) := by
    cases v <;> rfl
  refine ⟨?_, ⟨_, hser⟩, ?_⟩
  · rw [(emitUpdate_connected config send w id _ socket _ hopen hser).1]
    rfl
  · rw [(emitUpdate_connected config send w id .undefined socket none hopen rfl).1]
    rfl

/-- C11 with `app:` configured, the id `foo/bar` and the values `{"x": 1}` and `"hello"`:
the frames are `app:foo/bar|{"x":1}` and `app:foo/bar|hello`; with nothing configured
the frame for `null` is `foo/bar|null`. -/
theorem encoded_frame_shape_witness :
    (emitUpdate ⟨[], some "app:".toList, false⟩ (fun _ => none)
        { ws := some 0, retryTimeout := .undefined,
          sockets := [{ url := "ws://".toList, readyState := 1, sent := [] }],
          timers := [], timersCreated := 0 }
        "foo/bar".toList (.json (.obj [("x".toList, .num ⟨false, [1], 1⟩)]))).2.sends =
      [(0, "app:foo/bar|\x7b\"x\":1\x7d".toList)] ∧
    (emitUpdate ⟨[], some "app:".toList, false⟩ (fun _ => none)
        { ws := some 0, retryTimeout := .undefined,
          sockets := [{ url := "ws://".toList, readyState := 1, sent := [] }],
          timers := [], timersCreated := 0 }
        "foo/bar".toList (.json (.str "hello".toList))).2.sends =
      [(0, "app:foo/bar|hello".toList)] ∧
    (emitUpdate ⟨[], none, false⟩ (fun _ => none)
        { ws := some 0, retryTimeout := .undefined,
          sockets := [{ url := "ws://".toList, readyState := 1, sent := [] }],
          timers := [], timersCreated := 0 }
        "foo/bar".toList (.json .null)).2.sends =
      [(0, "foo/bar|null".toList)] :=
  ⟨(encoded_frame_shape ⟨[], some "app:".toList, false⟩ (fun _ => none)
      { ws := some 0, retryTimeout := .undefined,
        sockets := [{ url := "ws://".toList, readyState := 1, sent := [] }],
        timers := [], timersCreated := 0 }
      0 "foo/bar".toList (.obj [("x".toList, .num ⟨false, [1], 1⟩)]) rfl).1,
    (encoded_frame_shape ⟨[], some "app:".toList, false⟩ (fun _ => none)
      { ws := some 0, retryTimeout := .undefined,
        sockets := [{ url := "ws://".toList, readyState := 1, sent := [] }],
        timers := [], timersCreated := 0 }
      0 "foo/bar".toList (.str "hello".toList) rfl).1,
    (encoded_frame_shape ⟨[], none, false⟩ (fun _ => none)
      { ws := some 0, retryTimeout := .undefined,
        sockets := [{ url := "ws://".toList, readyState := 1, sent := [] }],
        timers := [], timersCreated := 0 }
      0 "foo/bar".toList .null rfl).1⟩

theorem stripPrefix_none_config (config : Config) (key : JStr)
    (h : config.websocketPrefix = none) : stripPrefix config key = some key := by
  have hp : prefixOrEmpty config = [] := by simp [prefixOrEmpty, h]
  have := stripPrefix_append config key
  rw [hp] at this
  simpa using this

/-- C12 (the cut is lossless and at the first separator). A frame `f` that holds a `|` is
cut by the handler into `key` and `value` with `key + "|" + value = f` and no `|` in
`key`; this is the only such cut, so `value` is everything after the first `|`, further
`|` included.  With nothing configured, these are the key that is routed and the value
that is parsed as payload. -/
theorem frame_split_lossless (f : JStr) (h : '|' ∈ f) :
    ∃ key value, splitFrame f = some (key, value) ∧ key ++ '|' :: value = f ∧ '|' ∉ key ∧
      (∀ k v, k ++ '|' :: v = f → '|' ∉ k → k = key ∧ v = value) ∧
      (∀ (config : Config) (runApi : Dispatcher), config.websocketPrefix = none →
        (onMessage config runApi f).calls =
          [{ eventName := (route key).1, target := (route key).2,
             payload := parsePayload value }]) := by
  obtain ⟨key, value, rfl, hk⟩ := List.eq_append_cons_of_mem h
  have hs := splitFrame_append key value hk
  refine ⟨key, value, hs, rfl, hk, ?_, ?_⟩
  · intro k v hkv hkn
    have h2 := splitFrame_append k v hkn
    rw [hkv, hs] at h2
    simp only [Option.some.injEq, Prod.mk.injEq] at h2
    exact ⟨h2.1.symm, h2.2.symm⟩
  · intro config runApi hcfg
    simp only [onMessage, onMessageWith, hs, stripPrefix_none_config config key hcfg]
    cases runApi _ _ _ <;> rfl

/-- C12 at the frame `a/b|x|y|z`: the key is `a/b` and the value is `x|y|z`. -/
theorem frame_split_lossless_witness :
    splitFrame "a/b|x|y|z".toList = some ("a/b".toList, "x|y|z".toList) := by
  obtain ⟨key, value, hs, _, _, huniq, _⟩ := frame_split_lossless "a/b|x|y|z".toList (by decide)
  obtain ⟨hk, hv⟩ := huniq "a/b".toList "x|y|z".toList rfl (by decide)
  rw [hs, hk, hv]

/-- C14 (key round trip without separators). For a configured text `p` and an id `i`
that hold no `|`, and a `data` whose serialized form is `value` (the string itself,
`JSON.stringify(data)`, or `undefined` written as text): on an open transport
`emitUpdate` sends one frame; the handler configured with the same `p` cuts it into the
key `p + i` and the serialized form, the key passes the filter, its stripped form is `i`
exactly, and the serialized form is what is parsed as payload. -/
theorem key_round_trip (config : Config) (send : JStr → Option Thrown) (runApi : Dispatcher)
    (w : World) (socket : Nat) (id : JStr) (data : Data) (value : Option JStr)
    (hp : '|' ∉ prefixOrEmpty config) (hi : '|' ∉ id)
    (hser : serialize data = .ok value) (hopen : openTransport w = some socket) :
    (emitUpdate config send w id data).2.sends = [(socket, frameOf config id value)] ∧
    splitFrame (frameOf config id value) =
      some (prefixOrEmpty config ++ id, toStringJS value) ∧
    startsWith (prefixOrEmpty config ++ id) (prefixOrEmpty config) = true ∧
    stripPrefix config (prefixOrEmpty config ++ id) = some id ∧
    (onMessage config runApi (frameOf config id value)).calls =
      [{ eventName := (route id).1, target := (route id).2,
         payload := parsePayload (toStringJS value) }] := by
  obtain ⟨h1, h2, h3⟩ := decode_frameOf config runApi id (toStringJS value) hp hi
  rw [← frameOf_toStringJS] at h1 h3
  exact ⟨(emitUpdate_connected config send w id data socket value hopen hser).1, h1,
    (startsWith_iff _ _).mpr ⟨id, rfl⟩, h2, h3⟩

/-- C14 with `app:` configured, the id `foo/bar/baz` and the data `[true, "a|b"]`: the
frame is `app:foo/bar/baz|[true,"a|b"]`, its stripped key is the id and the value
parsed is the serialized form. -/
theorem key_round_trip_witness :
    splitFrame "app:foo/bar/baz|[true,\"a|b\"]".toList =
      some ("app:foo/bar/baz".toList, "[true,\"a|b\"]".toList) ∧
    stripPrefix ⟨[], some "app:".toList, false⟩ "app:foo/bar/baz".toList =
      some "foo/bar/baz".toList :=
  ⟨(key_round_trip ⟨[], some "app:".toList, false⟩ (fun _ => none) (fun _ _ _ => none)
      { ws := some 0, retryTimeout := .undefined,
        sockets := [{ url := "ws://".toList, readyState := 1, sent := [] }],
        timers := [], timersCreated := 0 }
      0 "foo/bar/baz".toList (.json (.arr [.bool true, .str "a|b".toList]))
      (some "[true,\"a|b\"]".toList) (by decide) (by decide) rfl rfl).2.1,
    (key_round_trip ⟨[], some "app:".toList, false⟩ (fun _ => none) (fun _ _ _ => none)
      { ws := some 0, retryTimeout := .undefined,
        sockets := [{ url := "ws://".toList, readyState := 1, sent := [] }],
        timers := [], timersCreated := 0 }
      0 "foo/bar/baz".toList (.json (.arr [.bool true, .str "a|b".toList]))
      (some "[true,\"a|b\"]".toList) (by decide) (by decide) rfl rfl).2.2.2.1⟩

theorem not_startsWith_of_sep (key p : JStr) (hkey : '|' ∉ key) (hp : '|' ∈ p) :
    startsWith key p = false := by
  rw [Bool.eq_false_iff]
  intro h
  obtain ⟨rest, rfl⟩ := (startsWith_iff key p).mp h
  exact hkey (List.mem_append_left _ hp)

/-- C15 (a separator in the configured text silences the handler). When the configured
text holds a `|`, the handler calls the dispatcher for no frame at all: a frame without
`|` is dropped, and the key of any other frame holds no `|`, so it cannot start with the
configured text.  The handler returns at once, with no fault and no change of state. -/
theorem separator_in_prefix_silences (config : Config) (runApi : Dispatcher) (p message : JStr)
    (hcfg : config.websocketPrefix = some p) (hp : '|' ∈ p) :
    onMessage config runApi message = { calls := [], errors := [], raised := none } ∧
    ∀ (w : World) (i : Nat), i < w.sockets.length →
      step config runApi w (.message i message) =
        some (w, { calls := [], errors := [], raised := none }) := by
  have h : onMessage config runApi message = { calls := [], errors := [], raised := none } := by
    cases hs : splitFrame message with
    | none => simp only [onMessage, onMessageWith, hs]
    | some kv =>
      obtain ⟨key, value⟩ := kv
      obtain ⟨_, hkey⟩ := splitFrame_eq_some message key value hs
      have hpe : prefixOrEmpty config = p := by simp [prefixOrEmpty, hcfg]
      have hsw : startsWith key (prefixOrEmpty config) = false := by
        rw [hpe]; exact not_startsWith_of_sep key p hkey hp
      simp only [onMessage, onMessageWith, hs, stripPrefix_eq_none config key hsw]
  exact ⟨h, fun w i hi => by simp [step, hi, h]⟩

/-- C15 with `a|b:` configured: the frame `a|b:foo/bar|1`, which `emitUpdate` would send
for the id `foo/bar` and the value `1`, leads to no dispatcher call. -/
theorem separator_in_prefix_silences_witness :
    onMessage ⟨[], some "a|b:".toList, false⟩ (fun _ _ _ => none) "a|b:foo/bar|1".toList =
      { calls := [], errors := [], raised := none } :=
  (separator_in_prefix_silences ⟨[], some "a|b:".toList, false⟩ (fun _ _ _ => none)
    "a|b:".toList "a|b:foo/bar|1".toList rfl (by decide)).1

/-! ## The reconnect transition -/

theorem scheduleReconnect_idle (w : World) (h : w.retryTimeout.truthy = false) :
    scheduleReconnect w =
      { w with
        retryTimeout := .timer w.timersCreated
        timers := w.timers ++ [{ id := w.timersCreated, delay := 3000 }]
        timersCreated := w.timersCreated + 1 } := by
  simp [scheduleReconnect, h]

theorem step_closeOrError_idle (config : Config) (runApi : Dispatcher) (w : World) (i : Nat)
    (e : Event) (hidle : w.retryTimeout.truthy = false) (hi : i < w.sockets.length)
    (he : e = .closed i ∨ e = .errored i) :
    ∃ w1 out, step config runApi w e = some (w1, out) ∧
      w1.retryTimeout = .timer w.timersCreated ∧
      w1.timers = w.timers ++ [{ id := w.timersCreated, delay := 3000 }] ∧
      w1.timersCreated = w.timersCreated + 1 ∧
      w1.ws = w.ws ∧ w1.sockets.length = w.sockets.length := by
  rcases he with rfl | rfl
  · refine ⟨scheduleReconnect (setReadyState w i WebSocket.CLOSED),
      { calls := [], errors := [], raised := none }, by simp only [step, hi, if_true], ?_⟩
    rw [scheduleReconnect_idle _ (by simpa [setReadyState] using hidle)]
    simp [setReadyState]
  · refine ⟨scheduleReconnect (setReadyState w i WebSocket.CLOSING),
      { calls := [], errors := [], raised := none }, by simp only [step, hi, if_true], ?_⟩
    rw [scheduleReconnect_idle _ (by simpa [setReadyState] using hidle)]
    simp [setReadyState]

theorem timers_nil_of_idle (w : World) (hinv : SingleRetry w)
    (hidle : w.retryTimeout.truthy = false) : w.timers = [] := by
  rcases hinv with ⟨_, hnil⟩ | ⟨t, hr, _⟩
  · exact hnil
  · simp [hr, TimerRef.truthy] at hidle

theorem step_timerFired_single (config : Config) (runApi : Dispatcher) (w : World) (t : Nat)
    (htim : w.timers = [{ id := t, delay := 3000 }]) :
    step config runApi w (.timerFired t) =
      some (connect config { w with retryTimeout := .null, timers := [] },
        { calls := [], errors := [], raised := none }) := by
  simp [step, htim, retryCallback]

/-- C13 (reconnect transition). In a reachable state with no retry timer pending, a
`close` or `error` event of any transport schedules exactly one timer, of 3000 ms, and
keeps it in `retryTimeout`.  When that timer fires, `retryTimeout` is cleared first and
`connect` runs in the cleared state: exactly one transport, to `"ws://" + serverUrl`, is
opened and becomes `ws`, and no timer is left.  After that a `close` or `error` event
schedules a timer again. -/
theorem reconnect_transition (config : Config) (runApi : Dispatcher) (w : World) (i : Nat)
    (e : Event) (hreach : Reachable config runApi w) (hidle : w.retryTimeout.truthy = false)
    (hi : i < w.sockets.length) (he : e = .closed i ∨ e = .errored i) :
    ∃ w1 out1, step config runApi w e = some (w1, out1) ∧
      w1.timers = [{ id := w.timersCreated, delay := 3000 }] ∧
      w1.retryTimeout = .timer w.timersCreated ∧
      w1.ws = w.ws ∧ w1.sockets.length = w.sockets.length ∧
      ∃ w2 out2, step config runApi w1 (.timerFired w.timersCreated) = some (w2, out2) ∧
        (∃ cleared : World, cleared.retryTimeout = .null ∧ cleared.timers = [] ∧
          cleared.sockets = w1.sockets ∧ w2 = connect config cleared) ∧
        w2.retryTimeout = .null ∧ w2.timers = [] ∧
        w2.sockets = w1.sockets ++
          [{ url := "ws://".toList ++ config.serverUrl, readyState := WebSocket.CONNECTING,
             sent := [] }] ∧
        w2.ws = some w1.sockets.length ∧
        ∀ j e2, j < w2.sockets.length → (e2 = .closed j ∨ e2 = .errored j) →
          ∃ w3 out3, step config runApi w2 e2 = some (w3, out3) ∧
            w3.timers = [{ id := w.timersCreated + 1, delay := 3000 }] ∧
            w3.retryTimeout = .timer (w.timersCreated + 1) := by
  obtain ⟨events, hrun⟩ := hreach
  have hinv : SingleRetry w :=
    singleRetry_run config runApi events _ w (singleRetry_onInitialize config) hrun
  have hnil := timers_nil_of_idle w hinv hidle
  obtain ⟨w1, out1, hstep1, hr1, ht1, hc1, hws1, hlen1⟩ :=
    step_closeOrError_idle config runApi w i e hidle hi he
  rw [hnil, List.nil_append] at ht1
  refine ⟨w1, out1, hstep1, ht1, hr1, hws1, hlen1,
    connect config { w1 with retryTimeout := .null, timers := [] },
    { calls := [], errors := [], raised := none },
    step_timerFired_single config runApi w1 _ ht1,
    ⟨{ w1 with retryTimeout := .null, timers := [] }, rfl, rfl, rfl, rfl⟩, rfl, rfl, rfl, rfl, ?_⟩
  intro j e2 hj he2
  obtain ⟨w3, out3, hstep3, hr3, ht3, _, _, _⟩ :=
    step_closeOrError_idle config runApi
      (connect config { w1 with retryTimeout := .null, timers := [] }) j e2 rfl hj he2
  refine ⟨w3, out3, hstep3, ?_, ?_⟩
  · rw [ht3]
    simp [connect, hc1]
  · rw [hr3]
    simp [connect, hc1]

/-- C13 after `onInitialize`: a `close` of the first transport schedules timer 0 with
3000 ms, and when it fires the second transport, to `ws://host:1`, is opened and
becomes `ws`. -/
theorem reconnect_transition_witness :
    ∃ w1 out1,
      step ⟨"host:1".toList, none, false⟩ (fun _ _ _ => none)
        (onInitialize ⟨"host:1".toList, none, false⟩ World.initial) (.closed 0) =
        some (w1, out1) ∧
      w1.timers = [{ id := 0, delay := 3000 }] ∧
      w1.retryTimeout = .timer 0 ∧
      w1.ws = some 0 ∧ w1.sockets.length = 1 ∧
      ∃ w2 out2,
        step ⟨"host:1".toList, none, false⟩ (fun _ _ _ => none) w1 (.timerFired 0) =
          some (w2, out2) ∧
        (∃ cleared : World, cleared.retryTimeout = .null ∧ cleared.timers = [] ∧
          cleared.sockets = w1.sockets ∧
          w2 = connect ⟨"host:1".toList, none, false⟩ cleared) ∧
        w2.retryTimeout = .null ∧ w2.timers = [] ∧
        w2.sockets = w1.sockets ++
          [{ url := "ws://host:1".toList, readyState := WebSocket.CONNECTING, sent := [] }] ∧
        w2.ws = some w1.sockets.length ∧
        ∀ j e2, j < w2.sockets.length → (e2 = .closed j ∨ e2 = .errored j) →
          ∃ w3 out3,
            step ⟨"host:1".toList, none, false⟩ (fun _ _ _ => none) w2 e2 = some (w3, out3) ∧
            w3.timers = [{ id := 1, delay := 3000 }] ∧
            w3.retryTimeout = .timer 1 :=
  reconnect_transition ⟨"host:1".toList, none, false⟩ (fun _ _ _ => none)
    (onInitialize ⟨"host:1".toList, none, false⟩ World.initial) 0 (.closed 0)
    ⟨[], rfl⟩ rfl (by decide) (Or.inl rfl)

/-! ## Events of a replaced transport -/

/-- C16 (events of a replaced transport). The `close` and `error` handlers look neither
at the transport that emitted the event nor at `ws`: in every state with `retryTimeout`
falsy, such an event of any transport created so far schedules a timer.  So after
`error` on the first transport, the timer, `open` on the second transport and a late
`close` on the first, the second transport is open and held by `ws`, and a timer is
pending; when it fires a third transport is opened and `ws` overwritten while the second
is still open.  Two transports are then live: "at most one live transport" does not hold
in every reachable state. -/
theorem stale_transport_reconnects (config : Config) (runApi : Dispatcher) :
    (∀ (w : World) (i : Nat) (e : Event), w.retryTimeout.truthy = false →
      i < w.sockets.length → (e = .closed i ∨ e = .errored i) →
      ∃ w1 out, step config runApi w e = some (w1, out) ∧
        w1.retryTimeout = .timer w.timersCreated ∧
        w1.timers = w.timers ++ [{ id := w.timersCreated, delay := 3000 }] ∧
        w1.ws = w.ws) ∧
    run config runApi (onInitialize config World.initial)
        [.errored 0, .timerFired 0, .opened 1, .closed 0] =
      some { ws := some 1, retryTimeout := .timer 1,
             sockets := [{ url := "ws://".toList ++ config.serverUrl,
                           readyState := WebSocket.CLOSED, sent := [] },
                         { url := "ws://".toList ++ config.serverUrl,
                           readyState := WebSocket.OPEN, sent := [] }],
             timers := [{ id := 1, delay := 3000 }], timersCreated := 2 } ∧
    run config runApi (onInitialize config World.initial)
        [.errored 0, .timerFired 0, .opened 1, .closed 0, .timerFired 1] =
      some { ws := some 2, retryTimeout := .null,
             sockets := [{ url := "ws://".toList ++ config.serverUrl,
                           readyState := WebSocket.CLOSED, sent := [] },
                         { url := "ws://".toList ++ config.serverUrl,
                           readyState := WebSocket.OPEN, sent := [] },
                         { url := "ws://".toList ++ config.serverUrl,
                           readyState := WebSocket.CONNECTING, sent := [] }],
             timers := [], timersCreated := 2 } ∧
    ¬ ∀ w, Reachable config runApi w → w.liveTransports ≤ 1 := by
  have hrun : run config runApi (onInitialize config World.initial)
      [.errored 0, .timerFired 0, .opened 1, .closed 0, .timerFired 1] =
      some { ws := some 2, retryTimeout := .null,
             sockets := [{ url := "ws://".toList ++ config.serverUrl,
                           readyState := WebSocket.CLOSED, sent := [] },
                         { url := "ws://".toList ++ config.serverUrl,
                           readyState := WebSocket.OPEN, sent := [] },
                         { url := "ws://".toList ++ config.serverUrl,
                           readyState := WebSocket.CONNECTING, sent := [] }],
             timers := [], timersCreated := 2 } := by
    rfl
  refine ⟨?_, by rfl, hrun, ?_⟩
  · intro w i e hidle hi he
    obtain ⟨w1, out, hstep, hr, ht, _, hws, _⟩ :=
      step_closeOrError_idle config runApi w i e hidle hi he
    exact ⟨w1, out, hstep, hr, ht, hws⟩
  · intro hall
    have := hall _ ⟨_, hrun⟩
    simp [World.liveTransports, Socket.live, WebSocket.CLOSED, WebSocket.OPEN,
      WebSocket.CONNECTING] at this

/-- C16 for the address `host:1`: in the state after `error` on the first transport,
the timer and `open` on the second, a `close` of the replaced first transport schedules
timer 1 although `ws` holds the open second transport. -/
theorem stale_transport_reconnects_witness :
    ∃ w1 out,
      step ⟨"host:1".toList, none, false⟩ (fun _ _ _ => none)
        { ws := some 1, retryTimeout := .null,
          sockets := [{ url := "ws://host:1".toList, readyState := 2, sent := [] },
                      { url := "ws://host:1".toList, readyState := 1, sent := [] }],
          timers := [], timersCreated := 1 } (.closed 0) = some (w1, out) ∧
      w1.retryTimeout = .timer 1 ∧
      w1.timers = [{ id := 1, delay := 3000 }] ∧
      w1.ws = some 1 :=
  (stale_transport_reconnects ⟨"host:1".toList, none, false⟩ (fun _ _ _ => none)).1
    { ws := some 1, retryTimeout := .null,
      sockets := [{ url := "ws://host:1".toList, readyState := 2, sent := [] },
                  { url := "ws://host:1".toList, readyState := 1, sent := [] }],
      timers := [], timersCreated := 1 } 0 (.closed 0) rfl (by decide) (Or.inl rfl)

end WebSockets
